import Mathlib

/-!
# R-Net backend control plane: formal model

A shallow embedding of the admission / caching / observability control plane of
the R-Net backend (`middleware/rate_limiter.py`, `middleware/cache.py`,
`middleware/metrics.py`).

Modelling conventions:
* Python `float` arithmetic is idealized as exact rational arithmetic (`ℚ`).
  Every claim settled below is evaluated at inputs where binary64 and exact
  rational arithmetic coincide; where a derived integer quantity could differ
  (the 95th-percentile index `int(n * 0.95)`), the coincidence of the float
  expression with `⌊19 * n / 20⌋` was checked exhaustively for every reachable
  window size (`n ≤ 1000`, the `deque(maxlen=1000)` bound) and the theorem
  carries that bound.
* Python `dict` / `OrderedDict` values are modelled as association lists in
  insertion order (head = oldest entry), which matches the iteration order the
  source relies on (`next(iter(cache))` is the head).
* `time.time()` is an explicit `now : ℚ` argument, and `self` state is passed
  explicitly; methods that mutate state return the new state.
-/

namespace RNet

/-- Python `int(x)` on a float: truncation toward zero. -/
def pyInt (x : ℚ) : ℤ := if 0 ≤ x then ⌊x⌋ else ⌈x⌉

namespace AList

/-- Lookup in a Python-dict-like association list (first matching key). -/
def find {κ ν : Type _} [DecidableEq κ] : List (κ × ν) → κ → Option ν
  | [], _ => none
  | (k', v) :: rest, k => if k' = k then some v else find rest k

/-- Python `d[k] = v`: replace in place if the key is present, else append
(insertion order puts new keys at the end, as in CPython dicts). -/
def set {κ ν : Type _} [DecidableEq κ] : List (κ × ν) → κ → ν → List (κ × ν)
  | [], k, v => [(k, v)]
  | (k', v') :: rest, k, v =>
      if k' = k then (k, v) :: rest else (k', v') :: set rest k v

/-- Python `del d[k]`: remove the (unique) entry for `k`. -/
def erase {κ ν : Type _} [DecidableEq κ] : List (κ × ν) → κ → List (κ × ν)
  | [], _ => []
  | (k', v') :: rest, k => if k' = k then rest else (k', v') :: erase rest k

/-- The keys of an association list, in order. -/
def keys {κ ν : Type _} (l : List (κ × ν)) : List κ := l.map Prod.fst

end AList

/-! ## `RateLimiter` (`middleware/rate_limiter.py`)

Buckets are stored in Python as `{client_id: {endpoint: (tokens, last_update)}}`;
lookups and updates only ever address one `(client_id, endpoint)` pair, so the
nested dict is modelled flattened, keyed by the pair.  `cleanup_old_entries`
additionally deletes a client whose inner dict became empty, which has no
observable effect on the flattened view. -/

namespace RateLimiter

/-- Rate limits per endpoint (requests per minute), from `RateLimiter.__init__`. -/
def limits : List (String × ℤ) := [("/generate", 5), ("/health", 60), ("default", 30)]

/-- Burst allowance (max tokens), from `RateLimiter.__init__`. -/
def burst : List (String × ℤ) := [("/generate", 2), ("/health", 10), ("default", 5)]

/-- Python `d.get(k, dflt)`. -/
def dictGet (m : List (String × ℤ)) (k : String) (dflt : ℤ) : ℤ :=
  (AList.find m k).getD dflt

/-- `RateLimiter._get_limit`: rate and burst for an endpoint, falling back to
the `"default"` entries. -/
def get_limit (endpoint : String) : ℤ × ℤ :=
  (dictGet limits endpoint (dictGet limits "default" 0),
   dictGet burst endpoint (dictGet burst "default" 0))

/-- The bucket map: `(client_id, endpoint) ↦ (tokens, last_update)`. -/
abbrev Buckets := List ((String × String) × ℚ × ℚ)

/-- `RateLimiter.check_rate_limit`, with the clock passed explicitly.
Returns the allow/deny decision and the updated bucket map.  (The source first
inserts `(max_burst, current_time)` for a never-seen key and then reads it
back; `Option.getD` fuses the two steps, and both branches store the final
bucket, exactly as the source does.) -/
def check_rate_limit (client_id endpoint : String) (current_time : ℚ)
    (s : Buckets) : Bool × Buckets :=
  let rate_per_minute := (get_limit endpoint).1
  let max_burst := (get_limit endpoint).2
  let bucket := (AList.find s (client_id, endpoint)).getD ((max_burst : ℚ), current_time)
  let time_passed := current_time - bucket.2
  let refill_rate := (rate_per_minute : ℚ) / 60
  let tokens := min (max_burst : ℚ) (bucket.1 + time_passed * refill_rate)
  if 1 ≤ tokens then
    (true, AList.set s (client_id, endpoint) (tokens - 1, current_time))
  else
    (false, AList.set s (client_id, endpoint) (tokens, current_time))

/-- `RateLimiter.get_retry_after`: seconds until the next request is allowed. -/
def get_retry_after (client_id endpoint : String) (s : Buckets) : ℤ :=
  let rate_per_minute := (get_limit endpoint).1
  match AList.find s (client_id, endpoint) with
  | some bucket =>
      if bucket.1 < 1 then
        let refill_rate := (rate_per_minute : ℚ) / 60
        let time_needed := (1 - bucket.1) / refill_rate
        pyInt time_needed + 1
      else 60
  | none => 60

/-- `RateLimiter.cleanup_old_entries`: drop buckets idle longer than
`max_age_seconds`. -/
def cleanup_old_entries (max_age_seconds : ℚ) (current_time : ℚ) (s : Buckets) : Buckets :=
  s.filter fun kv => decide (current_time - kv.2.2 ≤ max_age_seconds)

/-- `check_rate_limit` iterated `n` times at one fixed timestamp (the
"`B` consecutive immediate calls" of the spec); collects the decisions. -/
def repeatCheck (client_id endpoint : String) (now : ℚ) :
    ℕ → Buckets → List Bool × Buckets
  | 0, s => ([], s)
  | n + 1, s =>
      let r := check_rate_limit client_id endpoint now s
      let rest := repeatCheck client_id endpoint now n r.2
      (r.1 :: rest.1, rest.2)

/-- One externally observable rate-limiter operation. -/
inductive Op where
  | check (client_id endpoint : String) (now : ℚ)
  | cleanup (max_age_seconds : ℚ) (now : ℚ)

/-- The timestamp an operation happens at. -/
def Op.time : Op → ℚ
  | .check _ _ now => now
  | .cleanup _ now => now

/-- State transition of one operation. -/
def Op.apply (op : Op) (s : Buckets) : Buckets :=
  match op with
  | .check c e now => (check_rate_limit c e now s).2
  | .cleanup a now => cleanup_old_entries a now s

/-- Run a sequence of operations. -/
def execOps (ops : List Op) (s : Buckets) : Buckets :=
  ops.foldl (fun s op => op.apply s) s

/-- The bucket invariant of the spec: every stored token count lies in
`[0, burst_capacity(route)]`, and no bucket's `last_update` is in the future
relative to the time bound `t`. -/
def BucketsInv (s : Buckets) (t : ℚ) : Prop :=
  ∀ kv ∈ s, 0 ≤ kv.2.1 ∧ kv.2.1 ≤ ((get_limit kv.1.2).2 : ℚ) ∧ kv.2.2 ≤ t

end RateLimiter

/-! ## `LRUCache` (`middleware/cache.py`)

The `OrderedDict` is an association list in insertion/recency order: the head
is the oldest entry (`next(iter(self.cache))`), the last element the
most-recently-used one.  `move_to_end` is "erase, then append with the same
value".  The cache body is keyed directly by the generated cache key string;
`_generate_key` (fingerprinting) is modelled separately below. -/

namespace LRUCache

/-- The state of `LRUCache` (value type `α` is the cached response). -/
structure Cache (α : Type _) where
  cache : List (String × α × ℚ)
  max_size : ℕ
  ttl_seconds : ℚ
  hits : ℕ
  misses : ℕ
  evictions : ℕ

/-- `LRUCache.__init__`. -/
def init (α : Type _) (max_size : ℕ) (ttl_seconds : ℚ) : Cache α :=
  { cache := [], max_size := max_size, ttl_seconds := ttl_seconds,
    hits := 0, misses := 0, evictions := 0 }

/-- `LRUCache.get` (body after key generation): returns the cached value if
present and not expired; expired entries are deleted on access; a hit is moved
to the most-recently-used end. -/
def get {α : Type _} (key : String) (now : ℚ) (c : Cache α) : Option α × Cache α :=
  match AList.find c.cache key with
  | some entry =>
      if c.ttl_seconds < now - entry.2 then
        (none, { c with cache := AList.erase c.cache key, misses := c.misses + 1 })
      else
        (some entry.1,
         { c with cache := AList.erase c.cache key ++ [(key, entry)],
                  hits := c.hits + 1 })
  | none => (none, { c with misses := c.misses + 1 })

/-- `LRUCache.set` (body after key generation): if `len(cache) >= max_size`,
delete the oldest entry (the head) first, then assign `cache[key] = (value,
now)` (dict assignment: in place if present, appended if new). -/
def set {α : Type _} (key : String) (value : α) (now : ℚ) (c : Cache α) : Cache α :=
  let c1 :=
    if c.max_size ≤ c.cache.length then
      { c with cache := c.cache.tail, evictions := c.evictions + 1 }
    else c
  { c1 with cache := AList.set c1.cache key (value, now) }

/-- `LRUCache.clear`. -/
def clear {α : Type _} (c : Cache α) : Cache α :=
  { c with cache := [], hits := 0, misses := 0, evictions := 0 }

/-- `LRUCache.cleanup_expired`: remove every expired entry, returning how many
were removed. -/
def cleanup_expired {α : Type _} (now : ℚ) (c : Cache α) : ℕ × Cache α :=
  let expired := c.cache.filter fun e => decide (c.ttl_seconds < now - e.2.2)
  (expired.length,
   { c with cache := c.cache.filter fun e => decide (now - e.2.2 ≤ c.ttl_seconds) })

/-- One externally observable cache operation. -/
inductive Op (α : Type _) where
  | get (key : String) (now : ℚ)
  | set (key : String) (value : α) (now : ℚ)
  | clear
  | cleanup (now : ℚ)

/-- State transition of one cache operation (return values discarded). -/
def Op.apply {α : Type _} : Op α → Cache α → Cache α
  | .get k now, c => (LRUCache.get k now c).2
  | .set k v now, c => LRUCache.set k v now c
  | .clear, c => LRUCache.clear c
  | .cleanup now, c => (LRUCache.cleanup_expired now c).2

/-- Run a sequence of cache operations. -/
def execOps {α : Type _} (ops : List (Op α)) (c : Cache α) : Cache α :=
  ops.foldl (fun c op => op.apply c) c

end LRUCache

/-! ## `LRUCache._generate_key` (`middleware/cache.py`)

The cache key is `sha256(f"{sha256(image)[:16]}:{description}:{tech_str}")`
with `tech_str = json.dumps(tech_stack, sort_keys=True)`.  The tech stack is a
flat `str → str` dict (`frontend` / `backend` / `database` / `architecture`),
modelled as an association list carrying its enumeration order.  `json.dumps`
with its default arguments (`ensure_ascii=True`, separators `", "` / `": "`)
is modelled character-exactly; SHA-256 itself is a parameter of the model (the
claims about it hold "up to hash collision"). -/

namespace Fingerprint

/-- Lowercase hexadecimal digit (`'0'` = 48, `'a'` = 97). -/
def hexDigit (n : ℕ) : Char :=
  if n < 10 then Char.ofNat (48 + n) else Char.ofNat (87 + n)

/-- `"%04x" % n` for `n < 0x10000`. -/
def hex4 (n : ℕ) : List Char :=
  [hexDigit (n / 4096 % 16), hexDigit (n / 256 % 16), hexDigit (n / 16 % 16),
   hexDigit (n % 16)]

/-- A `\uXXXX` escape. -/
def uEscape (n : ℕ) : List Char := '\\' :: 'u' :: hex4 n

/-- JSON escape of one character, exactly as `json.dumps` (`ensure_ascii=True`)
produces it: shorthand escapes for `\" \\ \b \f \n \r \t`, plain for printable
ASCII (`0x20`–`0x7e`), `\uXXXX` otherwise, with surrogate pairs for astral
characters. -/
def escapeChar (c : Char) : List Char :=
  if c = '"' then ['\\', '"']
  else if c = '\\' then ['\\', '\\']
  else if c = '\x08' then ['\\', 'b']
  else if c = '\x0c' then ['\\', 'f']
  else if c = '\n' then ['\\', 'n']
  else if c = '\r' then ['\\', 'r']
  else if c = '\t' then ['\\', 't']
  else if c.toNat < 0x20 ∨ 0x7e < c.toNat then
    if c.toNat < 0x10000 then uEscape c.toNat
    else uEscape (0xd800 + (c.toNat - 0x10000) / 0x400) ++
         uEscape (0xdc00 + (c.toNat - 0x10000) % 0x400)
  else [c]

/-- JSON escape of a string body. -/
def escape : List Char → List Char
  | [] => []
  | c :: rest => escapeChar c ++ escape rest

/-- A JSON string literal: `"` body `"`. -/
def quoteStr (s : String) : List Char := '"' :: (escape s.data ++ ['"'])

/-- The serialized items of a flat string→string dict, joined by `", "`. -/
def items : List (String × String) → List Char
  | [] => []
  | [(k, v)] => quoteStr k ++ ':' :: ' ' :: quoteStr v
  | (k, v) :: rest => quoteStr k ++ ':' :: ' ' :: quoteStr v ++ ',' :: ' ' :: items rest

/-- Stable insertion of an entry into a key-sorted list (`sorted` is stable;
Python string `<` is code-point lexicographic, as is Lean's). -/
def insertSorted (p : String × String) :
    List (String × String) → List (String × String)
  | [] => [p]
  | q :: rest => if p.1 ≤ q.1 then p :: q :: rest else q :: insertSorted p rest

/-- Sort the dict items by key. -/
def sortByKey : List (String × String) → List (String × String)
  | [] => []
  | p :: rest => insertSorted p (sortByKey rest)

/-- `json.dumps(tech_stack, sort_keys=True)` for a flat string→string dict. -/
def dumpsSorted (tech_stack : List (String × String)) : List Char :=
  '{' :: (items (sortByKey tech_stack) ++ ['}'])

/-- The `key_data` string of `LRUCache._generate_key`:
`f"{image_hash}:{description}:{tech_str}"` with `image_hash` the first 16 hex
characters of the image digest. -/
def key_data (sha256hex : String → String)
    (image_data description : String) (tech_stack : List (String × String)) :
    String :=
  let image_hash := (sha256hex image_data).take 16
  let tech_str := String.mk (dumpsSorted tech_stack)
  image_hash ++ ":" ++ description ++ ":" ++ tech_str

/-- `LRUCache._generate_key`, with the SHA-256 hex digest abstracted as the
parameter `sha256hex` (the claims about it hold "up to hash collision", so
collision-freeness at the relevant inputs is hypothesised where needed). -/
def generate_key (sha256hex : String → String)
    (image_data description : String) (tech_stack : List (String × String)) :
    String :=
  sha256hex (key_data sha256hex image_data description tech_stack)

/-- Numeric value of a lowercase hexadecimal digit (left inverse of
`hexDigit`; used to prove that the escape code is prefix-decodable). -/
def hexVal (c : Char) : ℕ :=
  if c.toNat ≤ 57 then c.toNat - 48 else c.toNat - 87

/-- Inverse of the shorthand escapes (`\b \f \n \r \t` map back to their
control characters; `\"` and `\\` map to themselves). -/
def unshort (d : Char) : Char :=
  if d = 'b' then '\x08'
  else if d = 'f' then '\x0c'
  else if d = 'n' then '\n'
  else if d = 'r' then '\r'
  else if d = 't' then '\t'
  else d

/-- Fuelled decoder for the JSON string-body code produced by `escape`:
consumes characters up to the first unescaped `"` and returns the decoded body
together with the remaining input (one unit of fuel per decoded character).
Its round-trip property is what makes `escape` an injective prefix code, which
the fingerprint-injectivity arguments rest on. -/
def unescapeF : ℕ → List Char → Option (List Char × List Char)
  | 0, _ => none
  | _ + 1, [] => none
  | fuel + 1, c :: rest =>
      if c = '"' then some ([], rest)
      else if c = '\\' then
        match rest with
        | [] => none
        | d :: rest1 =>
            if d = 'u' then
              match rest1 with
              | h1 :: h2 :: h3 :: h4 :: rest2 =>
                  let n := hexVal h1 * 4096 + hexVal h2 * 256 + hexVal h3 * 16 + hexVal h4
                  if 0xd800 ≤ n ∧ n < 0xdc00 then
                    match rest2 with
                    | e1 :: e2 :: g1 :: g2 :: g3 :: g4 :: rest3 =>
                        if e1 = '\\' ∧ e2 = 'u' then
                          let m := hexVal g1 * 4096 + hexVal g2 * 256 +
                            hexVal g3 * 16 + hexVal g4
                          (unescapeF fuel rest3).map fun p =>
                            (Char.ofNat (0x10000 + (n - 0xd800) * 0x400 + (m - 0xdc00)) :: p.1,
                             p.2)
                        else none
                    | _ => none
                  else
                    (unescapeF fuel rest2).map fun p => (Char.ofNat n :: p.1, p.2)
              | _ => none
            else
              (unescapeF fuel rest1).map fun p => (unshort d :: p.1, p.2)
      else
        (unescapeF fuel rest).map fun p => (c :: p.1, p.2)

end Fingerprint

/-! ## `MetricsCollector` (`middleware/metrics.py`) -/

/-- Round half to even (Python `round` on a decimal value that is exact in the
model's rational arithmetic). -/
def roundHalfEven (q : ℚ) : ℤ :=
  if q - ⌊q⌋ < 1/2 then ⌊q⌋
  else if 1/2 < q - ⌊q⌋ then ⌊q⌋ + 1
  else if 2 ∣ ⌊q⌋ then ⌊q⌋ else ⌊q⌋ + 1

/-- Python `round(x, 2)`. -/
def round2 (q : ℚ) : ℚ := (roundHalfEven (q * 100) : ℚ) / 100

namespace MetricsCollector

/-- The state of `MetricsCollector`.  `response_times` holds one
count-bounded window per endpoint (`deque(maxlen=window_size)`). -/
structure State where
  request_count : List (String × ℕ)
  error_count : List (String × ℕ)
  response_times : List (String × List ℚ)
  window_size : ℕ
  openai_calls : ℕ
  openai_errors : ℕ
  openai_tokens_used : ℕ
  openai_cost : ℚ
  cache_hits : ℕ
  cache_misses : ℕ
  start_time : ℚ

/-- `MetricsCollector.__init__` (default `window_size=1000`). -/
def init (window_size : ℕ) (start_time : ℚ) : State :=
  { request_count := [], error_count := [], response_times := [],
    window_size := window_size, openai_calls := 0, openai_errors := 0,
    openai_tokens_used := 0, openai_cost := 0, cache_hits := 0,
    cache_misses := 0, start_time := start_time }

/-- `MetricsCollector.record_request`: bump the request counter, append the
duration to the endpoint's window (dropping the oldest element when the window
is full, as `deque(maxlen=…)` does), and bump the error counter for status
codes ≥ 400. -/
def record_request (method path : String) (status_code : ℕ) (duration : ℚ)
    (m : State) : State :=
  let endpoint := method ++ " " ++ path
  let m1 := { m with
    request_count := AList.set m.request_count endpoint
      ((AList.find m.request_count endpoint).getD 0 + 1) }
  let times := (AList.find m1.response_times endpoint).getD []
  let times' := if m1.window_size ≤ times.length
    then times.tail ++ [duration] else times ++ [duration]
  let m2 := { m1 with response_times := AList.set m1.response_times endpoint times' }
  if 400 ≤ status_code then
    { m2 with error_count := (AList.set m2.error_count endpoint
        ((AList.find m2.error_count endpoint).getD 0 + 1)) }
  else m2

/-- `MetricsCollector.record_openai_call`. -/
def record_openai_call (success : Bool) (tokens : ℕ) (cost : ℚ) (m : State) : State :=
  let m1 := { m with openai_calls := m.openai_calls + 1 }
  if success then
    { m1 with openai_tokens_used := m1.openai_tokens_used + tokens,
              openai_cost := m1.openai_cost + cost }
  else { m1 with openai_errors := m1.openai_errors + 1 }

/-- `MetricsCollector.record_cache`. -/
def record_cache (hit : Bool) (m : State) : State :=
  if hit then { m with cache_hits := m.cache_hits + 1 }
  else { m with cache_misses := m.cache_misses + 1 }

/-- Python `sorted` on a list of floats (stable; insertion sort). -/
def sortQ : List ℚ → List ℚ
  | [] => []
  | x :: rest => insortQ x (sortQ rest)
where
  insortQ (x : ℚ) : List ℚ → List ℚ
    | [] => [x]
    | y :: rest => if x ≤ y then x :: y :: rest else y :: insortQ x rest

/-- The 95th-percentile selection of `get_metrics`:
`times_sorted[idx] if idx < len(times_sorted) else times_sorted[-1]` with
`idx = int(len(times_sorted) * 0.95)`.  The float expression `int(n * 0.95)`
equals `19 * n / 20` (integer division) for every reachable window length
(`n ≤ 1000 = deque maxlen`). -/
def p95_of (times : List ℚ) : ℚ :=
  let times_sorted := sortQ times
  let idx := 19 * times_sorted.length / 20
  if idx < times_sorted.length then times_sorted.getD idx 0
  else times_sorted.getLastD 0

/-- Mean of a window (`sum(times) / len(times)`). -/
def avg_of (times : List ℚ) : ℚ := times.sum / times.length

/-- The `avg_response_time_ms` map of `get_metrics` (empty windows skipped,
seconds scaled to ms and rounded to 2 decimals). -/
def avg_response_time_ms (m : State) : List (String × ℚ) :=
  m.response_times.filterMap fun et =>
    if et.2.isEmpty then none else some (et.1, round2 (avg_of et.2 * 1000))

/-- The `p95_response_time_ms` map of `get_metrics`. -/
def p95_response_time_ms (m : State) : List (String × ℚ) :=
  m.response_times.filterMap fun et =>
    if et.2.isEmpty then none else some (et.1, round2 (p95_of et.2 * 1000))

/-- `sum(self.request_count.values())`. -/
def total_requests (m : State) : ℕ := (m.request_count.map Prod.snd).sum

/-- `sum(self.error_count.values())`. -/
def total_errors (m : State) : ℕ := (m.error_count.map Prod.snd).sum

/-- The `error_rate_percent` field of `get_metrics`. -/
def error_rate_percent (m : State) : ℚ :=
  round2 (if 0 < total_requests m
    then (total_errors m : ℚ) / (total_requests m : ℚ) * 100 else 0)

/-- The OpenAI `success_rate_percent` field of `get_metrics`. -/
def success_rate_percent (m : State) : ℚ :=
  if 0 < m.openai_calls
  then round2 (((m.openai_calls : ℚ) - (m.openai_errors : ℚ)) / (m.openai_calls : ℚ) * 100)
  else 0

/-- The warnings `get_health_status` can emit, abstracting the f-string
message texts by their kind and interpolated numbers. -/
inductive Warning where
  | highErrorRate (rate : ℚ)
  | elevatedErrorRate (rate : ℚ)
  | lowOpenAISuccessRate (rate : ℚ)
  | slowResponseTime (endpoint : String) (avg_ms : ℚ)
deriving DecidableEq

/-- `MetricsCollector.get_health_status`: the `healthy` flag and the warnings
list. -/
def get_health_status (m : State) : Bool × List Warning :=
  let error_rate := error_rate_percent m
  let step1 : Bool × List Warning :=
    if 10 < error_rate then (false, [.highErrorRate error_rate])
    else if 5 < error_rate then (true, [.elevatedErrorRate error_rate])
    else (true, [])
  let openai_success_rate := success_rate_percent m
  let step2 : Bool × List Warning :=
    if 0 < m.openai_calls ∧ openai_success_rate < 90
    then (false, step1.2 ++ [.lowOpenAISuccessRate openai_success_rate])
    else step1
  let warnings := step2.2 ++ (avg_response_time_ms m).filterMap fun ea =>
    if 5000 < ea.2 then some (.slowResponseTime ea.1 ea.2) else none
  (step2.1, warnings)

end MetricsCollector

/-! ## Shared lemmas -/

theorem AList.find_set_self {κ ν : Type _} [DecidableEq κ] (l : List (κ × ν)) (k : κ) (v : ν) :
    AList.find (AList.set l k v) k = some v := by
  induction l with
  | nil => simp [AList.find, AList.set]
  | cons hd tl ih =>
      obtain ⟨k', v'⟩ := hd
      by_cases h : k' = k
      · subst h; simp [AList.set, AList.find]
      · simp [AList.set, AList.find, h, ih]

theorem AList.mem_set {κ ν : Type _} [DecidableEq κ] {l : List (κ × ν)} {k : κ} {v : ν}
    {kv : κ × ν} (h : kv ∈ AList.set l k v) : kv ∈ l ∨ kv = (k, v) := by
  induction l with
  | nil => simpa [AList.set] using h
  | cons hd tl ih =>
      obtain ⟨k', v'⟩ := hd
      by_cases hk : k' = k
      · subst hk
        simp only [AList.set, if_pos rfl] at h
        rcases List.mem_cons.mp h with h | h
        · right; exact h
        · left; exact List.mem_cons_of_mem _ h
      · simp only [AList.set, if_neg hk] at h
        rcases List.mem_cons.mp h with h | h
        · left; exact h ▸ List.mem_cons_self _ _
        · rcases ih h with h' | h'
          · left; exact List.mem_cons_of_mem _ h'
          · right; exact h'

theorem AList.find_mem {κ ν : Type _} [DecidableEq κ] {l : List (κ × ν)} {k : κ} {v : ν}
    (h : AList.find l k = some v) : (k, v) ∈ l := by
  induction l with
  | nil => simp [AList.find] at h
  | cons hd tl ih =>
      obtain ⟨k', v'⟩ := hd
      by_cases hk : k' = k
      · subst hk
        simp only [AList.find, if_pos rfl, if_true, Option.some.injEq] at h
        subst h
        exact List.mem_cons_self _ _
      · simp only [AList.find, if_neg hk] at h
        exact List.mem_cons_of_mem _ (ih h)

theorem pyInt_eq_floor {x : ℚ} (h : 0 ≤ x) : pyInt x = ⌊x⌋ := by
  simp [pyInt, h]

theorem pyInt_nonneg {x : ℚ} (h : 0 ≤ x) : 0 ≤ pyInt x := by
  rw [pyInt_eq_floor h]
  exact Int.floor_nonneg.mpr h

theorem RateLimiter.rate_pos (endpoint : String) : 0 < (RateLimiter.get_limit endpoint).1 := by
  simp only [RateLimiter.get_limit, RateLimiter.dictGet, RateLimiter.limits, AList.find]
  split_ifs <;> norm_num

theorem RateLimiter.burst_ge_one (endpoint : String) : 1 ≤ (RateLimiter.get_limit endpoint).2 := by
  simp only [RateLimiter.get_limit, RateLimiter.dictGet, RateLimiter.burst, AList.find]
  split_ifs <;> norm_num

theorem RateLimiter.refill_rate_pos (endpoint : String) :
    0 < ((RateLimiter.get_limit endpoint).1 : ℚ) / 60 := by
  have h : (0 : ℚ) < ((RateLimiter.get_limit endpoint).1 : ℚ) := by
    exact_mod_cast RateLimiter.rate_pos endpoint
  positivity

theorem RateLimiter.retry_after_none (client_id endpoint : String)
    (s : RateLimiter.Buckets) (h : AList.find s (client_id, endpoint) = none) :
    RateLimiter.get_retry_after client_id endpoint s = 60 := by
  simp [RateLimiter.get_retry_after, h]

theorem RateLimiter.retry_after_full (client_id endpoint : String)
    (s : RateLimiter.Buckets) {tok last : ℚ}
    (h : AList.find s (client_id, endpoint) = some (tok, last)) (htok : 1 ≤ tok) :
    RateLimiter.get_retry_after client_id endpoint s = 60 := by
  simp [RateLimiter.get_retry_after, h, not_lt.mpr htok]

theorem RateLimiter.retry_after_low (client_id endpoint : String)
    (s : RateLimiter.Buckets) {tok last : ℚ}
    (h : AList.find s (client_id, endpoint) = some (tok, last)) (htok : tok < 1) :
    RateLimiter.get_retry_after client_id endpoint s =
      ⌊(1 - tok) / (((RateLimiter.get_limit endpoint).1 : ℚ) / 60)⌋ + 1 ∧
    1 ≤ RateLimiter.get_retry_after client_id endpoint s := by
  have hrfl : 0 < ((RateLimiter.get_limit endpoint).1 : ℚ) / 60 :=
    RateLimiter.refill_rate_pos endpoint
  have hnn : 0 ≤ (1 - tok) / (((RateLimiter.get_limit endpoint).1 : ℚ) / 60) :=
    div_nonneg (by linarith) (le_of_lt hrfl)
  constructor
  · simp only [RateLimiter.get_retry_after, h, htok, if_pos]
    rw [pyInt_eq_floor hnn]
  · simp only [RateLimiter.get_retry_after, h, htok, if_pos]
    have := pyInt_nonneg hnn
    omega

/-! ## C10: the `get_retry_after` contract -/

/-- **C10.**  For every request whose `(client, endpoint)` bucket is absent, or
whose stored token count is at least 1.0, `get_retry_after` returns the fixed
default of 60 seconds; otherwise it returns
`⌊(1.0 - tokens) / refill_rate⌋ + 1`, which is at least 1. -/
theorem retry_after_contract (client_id endpoint : String) (s : RateLimiter.Buckets) :
    (AList.find s (client_id, endpoint) = none →
      RateLimiter.get_retry_after client_id endpoint s = 60) ∧
    (∀ tok last, AList.find s (client_id, endpoint) = some (tok, last) → 1 ≤ tok →
      RateLimiter.get_retry_after client_id endpoint s = 60) ∧
    (∀ tok last, AList.find s (client_id, endpoint) = some (tok, last) → tok < 1 →
      RateLimiter.get_retry_after client_id endpoint s =
        ⌊(1 - tok) / (((RateLimiter.get_limit endpoint).1 : ℚ) / 60)⌋ + 1 ∧
      1 ≤ RateLimiter.get_retry_after client_id endpoint s) :=
  ⟨fun h => RateLimiter.retry_after_none client_id endpoint s h,
   fun _ _ h htok => RateLimiter.retry_after_full client_id endpoint s h htok,
   fun _ _ h htok => RateLimiter.retry_after_low client_id endpoint s h htok⟩

/-- **C10, witness.**  A bucket at 1/24 tokens on `/generate` (refill rate
1/12 tokens/second): `get_retry_after` is `⌊11.5⌋ + 1 = 12 ≥ 1`; an absent
bucket gives 60. -/
theorem retry_after_contract_witness :
    AList.find [(("c", "/generate"), ((1 : ℚ)/24, (1 : ℚ)/2))] ("c", "/generate") =
      some (1/24, 1/2) ∧
    (1 : ℚ)/24 < 1 ∧
    (RateLimiter.get_retry_after "c" "/generate"
        [(("c", "/generate"), (1/24, 1/2))] =
      ⌊(1 - (1 : ℚ)/24) / (((RateLimiter.get_limit "/generate").1 : ℚ) / 60)⌋ + 1 ∧
      1 ≤ RateLimiter.get_retry_after "c" "/generate"
        [(("c", "/generate"), (1/24, 1/2))]) :=
  ⟨by simp [AList.find], by norm_num,
    (retry_after_contract "c" "/generate" [(("c", "/generate"), (1/24, 1/2))]).2.2
      (1/24) (1/2) (by simp [AList.find]) (by norm_num)⟩

/-! ## C1: the rejection-path retry-after formula -/

/-- **C1 (amended).**  For every rejected `check_rate_limit` call, the stored
refreshed token count `tokens'` is below 1.0 and `get_retry_after` reports
`retry_after_seconds = ⌊(1.0 - tokens') / refill_rate⌋ + 1` (Python `int`
truncation, not the ceiling of the original claim), where
`refill_rate = rate_per_minute / 60`. -/
theorem retry_after_of_rejected (c e : String) (now : ℚ) (s s' : RateLimiter.Buckets)
    (tok : ℚ)
    (hcheck : RateLimiter.check_rate_limit c e now s = (false, s'))
    (hfind : AList.find s' (c, e) = some (tok, now)) :
    tok < 1 ∧
    RateLimiter.get_retry_after c e s' =
      ⌊(1 - tok) / (((RateLimiter.get_limit e).1 : ℚ) / 60)⌋ + 1 := by
  have hfind0 := hfind
  simp only [RateLimiter.check_rate_limit] at hcheck
  split at hcheck
  · exact absurd (congrArg Prod.fst hcheck) (by simp)
  · rename_i hlt
    injection hcheck with h1 h2
    subst h2
    rw [AList.find_set_self] at hfind
    have heq := Option.some.inj hfind
    have htok : _ = tok := congrArg Prod.fst heq
    have htok1 : tok < 1 := htok ▸ not_le.mp hlt
    exact ⟨htok1, (RateLimiter.retry_after_low c e _ hfind0 htok1).1⟩

/-- **C1, witness.**  The rejected call at time 1/2 after two admitted calls
at time 0 on `/generate`: the stored count is 1/24 and the report is
`⌊11.5⌋ + 1 = 12`. -/
theorem retry_after_of_rejected_witness :
    ((1 : ℚ)/24 < 1 ∧
      RateLimiter.get_retry_after "c" "/generate"
          [(("c", "/generate"), ((1 : ℚ)/24, (1 : ℚ)/2))] =
        ⌊(1 - (1 : ℚ)/24) / (((RateLimiter.get_limit "/generate").1 : ℚ) / 60)⌋ + 1) :=
  retry_after_of_rejected "c" "/generate" (1/2) [(("c", "/generate"), (0, 0))]
    [(("c", "/generate"), (1/24, 1/2))] (1/24)
    (by norm_num [RateLimiter.check_rate_limit, RateLimiter.get_limit,
      RateLimiter.dictGet, RateLimiter.limits, RateLimiter.burst, AList.find,
      AList.set, min_def])
    (by simp [AList.find])

/-- **C1, counterexample.**  A fresh client admitted twice on `/generate` at
time 0 and rejected at time 1/2 ends with `tokens' = 1/24`, so
`(1 - tokens') / refill_rate = 11.5`; the code reports `⌊11.5⌋ + 1 = 12`, but
the claimed formula `⌈11.5⌉ + 1` gives 13. -/
theorem retry_after_ceil_counterexample :
    (RateLimiter.check_rate_limit "c" "/generate" 0 []).1 = true ∧
    (RateLimiter.check_rate_limit "c" "/generate" 0
        (RateLimiter.check_rate_limit "c" "/generate" 0 []).2).1 = true ∧
    RateLimiter.check_rate_limit "c" "/generate" (1/2)
        (RateLimiter.check_rate_limit "c" "/generate" 0
          (RateLimiter.check_rate_limit "c" "/generate" 0 []).2).2 =
      (false, [(("c", "/generate"), ((1 : ℚ)/24, (1 : ℚ)/2))]) ∧
    RateLimiter.get_retry_after "c" "/generate"
        [(("c", "/generate"), ((1 : ℚ)/24, (1 : ℚ)/2))] = 12 ∧
    ⌈(1 - (1 : ℚ)/24) / (((RateLimiter.get_limit "/generate").1 : ℚ) / 60)⌉ + 1 = 13 := by
  refine ⟨?_, ?_, ?_, ?_, ?_⟩
  case refine_5 =>
    have harg : (1 - (1 : ℚ)/24) / (((RateLimiter.get_limit "/generate").1 : ℚ) / 60) =
        23/2 := by
      norm_num [RateLimiter.get_limit, RateLimiter.dictGet, RateLimiter.limits, AList.find]
    rw [harg]
    have hc : ⌈(23 : ℚ)/2⌉ = 12 := by
      rw [Int.ceil_eq_iff]
      norm_num
    rw [hc]
    norm_num
  all_goals
    norm_num [RateLimiter.check_rate_limit, RateLimiter.get_retry_after,
      RateLimiter.get_limit, RateLimiter.dictGet, RateLimiter.limits,
      RateLimiter.burst, AList.find, AList.set, min_def, pyInt]

/-! ## C2: token-bucket saturation -/

theorem RateLimiter.check_fresh (c e : String) (t : ℚ) (s : RateLimiter.Buckets)
    (hfresh : AList.find s (c, e) = none) :
    RateLimiter.check_rate_limit c e t s =
      (true, AList.set s (c, e) (((RateLimiter.get_limit e).2 : ℚ) - 1, t)) := by
  have hB1 : (1 : ℚ) ≤ ((RateLimiter.get_limit e).2 : ℚ) := by
    exact_mod_cast RateLimiter.burst_ge_one e
  simp only [RateLimiter.check_rate_limit, hfresh, Option.getD_none]
  rw [show ((RateLimiter.get_limit e).2 : ℚ) +
      (t - t) * (((RateLimiter.get_limit e).1 : ℚ) / 60) =
      ((RateLimiter.get_limit e).2 : ℚ) by ring]
  rw [min_self, if_pos hB1]

theorem RateLimiter.check_same_time (c e : String) (t : ℚ) (s : RateLimiter.Buckets)
    {tok : ℚ} (hfind : AList.find s (c, e) = some (tok, t))
    (hB : tok ≤ ((RateLimiter.get_limit e).2 : ℚ)) :
    RateLimiter.check_rate_limit c e t s =
      (if 1 ≤ tok then (true, AList.set s (c, e) (tok - 1, t))
       else (false, AList.set s (c, e) (tok, t))) := by
  simp only [RateLimiter.check_rate_limit, hfind, Option.getD_some]
  rw [show tok + (t - t) * (((RateLimiter.get_limit e).1 : ℚ) / 60) = tok by ring]
  rw [min_eq_right hB]

theorem RateLimiter.repeatCheck_drain (c e : String) (t : ℚ) (n : ℕ) :
    ∀ (s : RateLimiter.Buckets) (tok : ℚ),
      AList.find s (c, e) = some (tok, t) →
      (n : ℚ) ≤ tok → tok ≤ ((RateLimiter.get_limit e).2 : ℚ) →
      (RateLimiter.repeatCheck c e t n s).1 = List.replicate n true ∧
      AList.find (RateLimiter.repeatCheck c e t n s).2 (c, e) = some (tok - n, t) := by
  induction n with
  | zero =>
      intro s tok hfind _ _
      simpa [RateLimiter.repeatCheck] using hfind
  | succ n ih =>
      intro s tok hfind hn hB
      have hn' : ((n : ℚ)) + 1 ≤ tok := by push_cast at hn; linarith
      have h1 : (1 : ℚ) ≤ tok := by
        have : (0 : ℚ) ≤ (n : ℚ) := Nat.cast_nonneg n
        linarith
      have hstep := RateLimiter.check_same_time c e t s hfind hB
      rw [if_pos h1] at hstep
      have hrec := ih (AList.set s (c, e) (tok - 1, t)) (tok - 1)
        (AList.find_set_self ..) (by linarith) (by linarith)
      refine ⟨?_, ?_⟩
      · simp only [RateLimiter.repeatCheck, hstep, List.replicate_succ]
        exact congrArg (List.cons true) hrec.1
      · simp only [RateLimiter.repeatCheck, hstep]
        rw [hrec.2]
        congr 1
        push_cast
        ring_nf

/-- **C2.**  For every route with burst capacity `B ≥ 1` and every fresh
client (no bucket for that client and route), `B` consecutive calls to
`check_rate_limit` at the same timestamp are all admitted, the `(B+1)`-th call
at that timestamp is rejected, and the subsequent `get_retry_after` value is
at least 1. -/
theorem token_bucket_saturation (c e : String) (t : ℚ) (s : RateLimiter.Buckets)
    (hfresh : AList.find s (c, e) = none)
    (hB : 1 ≤ (RateLimiter.get_limit e).2) :
    (RateLimiter.repeatCheck c e t (RateLimiter.get_limit e).2.toNat s).1 =
      List.replicate (RateLimiter.get_limit e).2.toNat true ∧
    (RateLimiter.check_rate_limit c e t
        (RateLimiter.repeatCheck c e t (RateLimiter.get_limit e).2.toNat s).2).1 = false ∧
    1 ≤ RateLimiter.get_retry_after c e
        (RateLimiter.check_rate_limit c e t
          (RateLimiter.repeatCheck c e t (RateLimiter.get_limit e).2.toNat s).2).2 := by
  obtain ⟨k, hk⟩ : ∃ k, (RateLimiter.get_limit e).2.toNat = k + 1 :=
    ⟨(RateLimiter.get_limit e).2.toNat - 1, by omega⟩
  have hBq : (((RateLimiter.get_limit e).2.toNat : ℚ)) = ((RateLimiter.get_limit e).2 : ℚ) := by
    rw_mod_cast [Int.toNat_of_nonneg (by omega)]
  have hkq : ((k : ℚ)) = ((RateLimiter.get_limit e).2 : ℚ) - 1 := by
    rw [← hBq, hk]
    push_cast
    ring
  have hB1 : (1 : ℚ) ≤ ((RateLimiter.get_limit e).2 : ℚ) := by exact_mod_cast hB
  have hfirst := RateLimiter.check_fresh c e t s hfresh
  have hdrain := RateLimiter.repeatCheck_drain c e t k
    (AList.set s (c, e) (((RateLimiter.get_limit e).2 : ℚ) - 1, t))
    (((RateLimiter.get_limit e).2 : ℚ) - 1)
    (AList.find_set_self ..) (by rw [hkq]) (by linarith)
  have hfin0 : AList.find
      (RateLimiter.repeatCheck c e t k
        (AList.set s (c, e) (((RateLimiter.get_limit e).2 : ℚ) - 1, t))).2 (c, e) =
      some (0, t) := by
    rw [hdrain.2, hkq]
    norm_num
  have hrun : RateLimiter.repeatCheck c e t (RateLimiter.get_limit e).2.toNat s =
      (true :: (RateLimiter.repeatCheck c e t k
          (AList.set s (c, e) (((RateLimiter.get_limit e).2 : ℚ) - 1, t))).1,
       (RateLimiter.repeatCheck c e t k
          (AList.set s (c, e) (((RateLimiter.get_limit e).2 : ℚ) - 1, t))).2) := by
    rw [hk]
    simp only [RateLimiter.repeatCheck, hfirst]
  have hstep2 := RateLimiter.check_same_time c e t
    (RateLimiter.repeatCheck c e t k
      (AList.set s (c, e) (((RateLimiter.get_limit e).2 : ℚ) - 1, t))).2
    hfin0 (by linarith)
  rw [if_neg (by norm_num)] at hstep2
  refine ⟨?_, ?_, ?_⟩
  · rw [hrun, hk, List.replicate_succ]
    exact congrArg (List.cons true) hdrain.1
  · rw [hrun]
    simp only [hstep2]
  · rw [hrun]
    simp only [hstep2]
    exact (RateLimiter.retry_after_low c e _ (AList.find_set_self ..) (by norm_num)).2

/-- **C2, witness.**  On `/generate` (`burst_capacity = 2`) from the empty
state at time 0: two admissions, then a rejection with a positive
retry-after. -/
theorem token_bucket_saturation_witness :
    AList.find ([] : RateLimiter.Buckets) ("x", "/generate") = none ∧
    1 ≤ (RateLimiter.get_limit "/generate").2 ∧
    ((RateLimiter.repeatCheck "x" "/generate" 0
        (RateLimiter.get_limit "/generate").2.toNat []).1 =
      List.replicate (RateLimiter.get_limit "/generate").2.toNat true ∧
    (RateLimiter.check_rate_limit "x" "/generate" 0
        (RateLimiter.repeatCheck "x" "/generate" 0
          (RateLimiter.get_limit "/generate").2.toNat []).2).1 = false ∧
    1 ≤ RateLimiter.get_retry_after "x" "/generate"
        (RateLimiter.check_rate_limit "x" "/generate" 0
          (RateLimiter.repeatCheck "x" "/generate" 0
            (RateLimiter.get_limit "/generate").2.toNat []).2).2) :=
  ⟨rfl, by norm_num [RateLimiter.get_limit, RateLimiter.dictGet, RateLimiter.burst, AList.find],
   token_bucket_saturation "x" "/generate" 0 [] rfl
     (by norm_num [RateLimiter.get_limit, RateLimiter.dictGet, RateLimiter.burst, AList.find])⟩

/-! ## C6: the token-count invariant -/

theorem RateLimiter.inv_mono {s : RateLimiter.Buckets} {t t' : ℚ}
    (hinv : RateLimiter.BucketsInv s t) (h : t ≤ t') : RateLimiter.BucketsInv s t' :=
  fun kv hkv => ⟨(hinv kv hkv).1, (hinv kv hkv).2.1, le_trans (hinv kv hkv).2.2 h⟩

theorem RateLimiter.check_result (c e : String) (now : ℚ) (s : RateLimiter.Buckets) :
    ∃ tokens : ℚ,
      (RateLimiter.check_rate_limit c e now s).2 =
        AList.set s (c, e) ((if 1 ≤ tokens then tokens - 1 else tokens), now) ∧
      tokens ≤ ((RateLimiter.get_limit e).2 : ℚ) ∧
      (RateLimiter.BucketsInv s now → 0 ≤ tokens) := by
  have hB1 : (1 : ℚ) ≤ ((RateLimiter.get_limit e).2 : ℚ) := by
    exact_mod_cast RateLimiter.burst_ge_one e
  have hr : 0 ≤ ((RateLimiter.get_limit e).1 : ℚ) / 60 :=
    le_of_lt (RateLimiter.refill_rate_pos e)
  cases hfind : AList.find s (c, e) with
  | none =>
      refine ⟨min ((RateLimiter.get_limit e).2 : ℚ)
        (((RateLimiter.get_limit e).2 : ℚ) +
          (now - now) * (((RateLimiter.get_limit e).1 : ℚ) / 60)), ?_, min_le_left _ _, ?_⟩
      · simp only [RateLimiter.check_rate_limit, hfind, Option.getD_none]
        rw [apply_ite Prod.snd]
        rw [← apply_ite (fun z => AList.set s (c, e) (z, now))]
      · intro _
        rw [show ((RateLimiter.get_limit e).2 : ℚ) +
            (now - now) * (((RateLimiter.get_limit e).1 : ℚ) / 60) =
            ((RateLimiter.get_limit e).2 : ℚ) by ring, min_self]
        linarith
  | some bucket =>
      obtain ⟨tok0, last⟩ := bucket
      refine ⟨min ((RateLimiter.get_limit e).2 : ℚ)
        (tok0 + (now - last) * (((RateLimiter.get_limit e).1 : ℚ) / 60)), ?_,
        min_le_left _ _, ?_⟩
      · simp only [RateLimiter.check_rate_limit, hfind, Option.getD_some]
        rw [apply_ite Prod.snd]
        rw [← apply_ite (fun z => AList.set s (c, e) (z, now))]
      · intro hinv
        have hmem := AList.find_mem hfind
        have h1 := (hinv _ hmem).1
        have h2 := (hinv _ hmem).2.2
        refine le_min (by linarith) ?_
        have : 0 ≤ (now - last) * (((RateLimiter.get_limit e).1 : ℚ) / 60) :=
          mul_nonneg (by simpa using sub_nonneg.mpr h2) hr
        dsimp only at h1 this ⊢
        linarith

theorem RateLimiter.check_preserves_inv (c e : String) (now t : ℚ)
    (s : RateLimiter.Buckets) (hinv : RateLimiter.BucketsInv s t) (ht : t ≤ now) :
    RateLimiter.BucketsInv (RateLimiter.check_rate_limit c e now s).2 now := by
  have hinv' : RateLimiter.BucketsInv s now := RateLimiter.inv_mono hinv ht
  obtain ⟨tokens, heq, hub, hlb⟩ := RateLimiter.check_result c e now s
  have h0 : 0 ≤ tokens := hlb hinv'
  intro kv hkv
  rw [heq] at hkv
  rcases AList.mem_set hkv with hmem | hnew
  · exact hinv' kv hmem
  · subst hnew
    refine ⟨?_, ?_, le_refl now⟩
    · dsimp only
      split
      · rename_i h1; linarith
      · exact h0
    · dsimp only
      have hB1 : (1 : ℚ) ≤ ((RateLimiter.get_limit e).2 : ℚ) := by
        exact_mod_cast RateLimiter.burst_ge_one e
      split
      · linarith
      · exact hub

theorem RateLimiter.cleanup_preserves_inv (a now t : ℚ) (s : RateLimiter.Buckets)
    (hinv : RateLimiter.BucketsInv s t) (ht : t ≤ now) :
    RateLimiter.BucketsInv (RateLimiter.cleanup_old_entries a now s) now :=
  fun kv hkv =>
    RateLimiter.inv_mono hinv ht kv (List.mem_of_mem_filter hkv)

theorem RateLimiter.op_preserves_inv (op : RateLimiter.Op) (t : ℚ)
    (s : RateLimiter.Buckets) (hinv : RateLimiter.BucketsInv s t)
    (ht : t ≤ op.time) : RateLimiter.BucketsInv (op.apply s) op.time := by
  cases op with
  | check c e now => exact RateLimiter.check_preserves_inv c e now t s hinv ht
  | cleanup a now => exact RateLimiter.cleanup_preserves_inv a now t s hinv ht

theorem RateLimiter.execOps_inv :
    ∀ (ops : List RateLimiter.Op) (s : RateLimiter.Buckets) (t : ℚ),
      RateLimiter.BucketsInv s t →
      List.Chain (fun a b => a ≤ b) t (ops.map RateLimiter.Op.time) →
      ∀ kv ∈ RateLimiter.execOps ops s,
        0 ≤ kv.2.1 ∧ kv.2.1 ≤ ((RateLimiter.get_limit kv.1.2).2 : ℚ) := by
  intro ops
  induction ops with
  | nil =>
      intro s t hinv _ kv hkv
      exact ⟨(hinv kv hkv).1, (hinv kv hkv).2.1⟩
  | cons op rest ih =>
      intro s t hinv hchain kv hkv
      rw [List.map_cons] at hchain
      rcases List.chain_cons.mp hchain with ⟨hle, hchain'⟩
      exact ih (op.apply s) op.time
        (RateLimiter.op_preserves_inv op t s hinv hle) hchain' kv hkv

theorem chain_take {α : Type _} {R : α → α → Prop} :
    ∀ (l : List α) (a : α), List.Chain R a l → ∀ n, List.Chain R a (l.take n) := by
  intro l
  induction l with
  | nil => intro a _ n; simp
  | cons b rest ih =>
      intro a h n
      rcases List.chain_cons.mp h with ⟨hab, hrest⟩
      cases n with
      | zero => simp
      | succ m =>
          rw [List.take_succ_cons]
          exact List.chain_cons.mpr ⟨hab, ih b hrest m⟩

/-- **C6.**  For every sequence of `check_rate_limit` and
`cleanup_old_entries` calls with non-decreasing timestamps, starting from the
empty bucket map, every bucket's token count lies in
`[0, burst_capacity(route)]` after every operation (every prefix of the
sequence), where `burst_capacity` falls back to the `"default"` entry for
unconfigured routes. -/
theorem bucket_invariant (ops : List RateLimiter.Op)
    (hmono : List.Chain' (fun a b => a ≤ b) (ops.map RateLimiter.Op.time)) :
    ∀ (n : ℕ), ∀ kv ∈ RateLimiter.execOps (ops.take n) [],
      0 ≤ kv.2.1 ∧ kv.2.1 ≤ ((RateLimiter.get_limit kv.1.2).2 : ℚ) := by
  intro n kv hkv
  cases ops with
  | nil =>
      simp only [List.take_nil, RateLimiter.execOps, List.foldl_nil] at hkv
      simp at hkv
  | cons op rest =>
      cases n with
      | zero =>
          simp only [List.take_zero, RateLimiter.execOps, List.foldl_nil] at hkv
          simp at hkv
      | succ m =>
          rw [List.take_succ_cons] at hkv
          have hchain : List.Chain (fun a b => a ≤ b) op.time
              ((rest.take m).map RateLimiter.Op.time) := by
            have h0 : List.Chain (fun a b => a ≤ b) op.time
                (rest.map RateLimiter.Op.time) := by
              simpa [List.map_cons] using hmono
            rw [List.map_take]
            exact chain_take _ _ h0 m
          refine RateLimiter.execOps_inv (op :: rest.take m) [] op.time
            (by intro kv h; simp at h) ?_ kv hkv
          rw [List.map_cons]
          exact List.chain_cons.mpr ⟨le_refl _, hchain⟩

/-- **C6, witness.**  A concrete monotone trace: two checks at times 0 and 1
and a sweep at time 5. -/
theorem bucket_invariant_witness :
    List.Chain' (fun a b => a ≤ b)
      (([RateLimiter.Op.check "a" "/generate" 0, RateLimiter.Op.check "a" "/generate" 1,
         RateLimiter.Op.cleanup 10 5].map RateLimiter.Op.time)) ∧
    (∀ kv ∈ RateLimiter.execOps
        (([RateLimiter.Op.check "a" "/generate" 0, RateLimiter.Op.check "a" "/generate" 1,
           RateLimiter.Op.cleanup 10 5]).take 3) [],
      0 ≤ kv.2.1 ∧ kv.2.1 ≤ ((RateLimiter.get_limit kv.1.2).2 : ℚ)) :=
  ⟨by norm_num [RateLimiter.Op.time],
   bucket_invariant _ (by norm_num [RateLimiter.Op.time]) 3⟩

/-! ## Association-list lemmas for the cache -/

theorem AList.find_eq_none {κ ν : Type _} [DecidableEq κ] :
    ∀ {l : List (κ × ν)} {k : κ}, k ∉ AList.keys l → AList.find l k = none := by
  intro l
  induction l with
  | nil => intro k _; rfl
  | cons hd tl ih =>
      obtain ⟨k', v'⟩ := hd
      intro k hk
      simp only [AList.keys, List.map_cons, List.mem_cons] at hk
      push_neg at hk
      have hne : ¬ (k' = k) := fun h => hk.1 h.symm
      simp only [AList.find, if_neg hne]
      exact ih hk.2

theorem AList.find_erase_self {κ ν : Type _} [DecidableEq κ] :
    ∀ {l : List (κ × ν)} (k : κ), (AList.keys l).Nodup →
      AList.find (AList.erase l k) k = none := by
  intro l
  induction l with
  | nil => intro k _; rfl
  | cons hd tl ih =>
      obtain ⟨k', v'⟩ := hd
      intro k hnd
      rcases List.nodup_cons.mp hnd with ⟨hk', hnd'⟩
      by_cases hk : k' = k
      · subst hk
        have herase : AList.erase ((k', v') :: tl) k' = tl := by simp [AList.erase]
        rw [herase]
        exact AList.find_eq_none hk'
      · simp only [AList.erase, if_neg hk, AList.find, if_neg hk]
        exact ih k hnd'

theorem AList.keys_set_nodup {κ ν : Type _} [DecidableEq κ] :
    ∀ (l : List (κ × ν)) (k : κ) (v : ν), (AList.keys l).Nodup →
      (AList.keys (AList.set l k v)).Nodup := by
  intro l
  induction l with
  | nil => intro k v _; simp [AList.set, AList.keys]
  | cons hd tl ih =>
      obtain ⟨k', v'⟩ := hd
      intro k v hnd
      rcases List.nodup_cons.mp hnd with ⟨hk', hnd'⟩
      by_cases hk : k' = k
      · subst hk
        have hset : AList.set ((k', v') :: tl) k' v = (k', v) :: tl := by
          simp [AList.set]
        rw [hset]
        simp only [AList.keys, List.map_cons]
        exact List.nodup_cons.mpr ⟨hk', hnd'⟩
      · simp only [AList.set, if_neg hk, AList.keys, List.map_cons]
        refine List.nodup_cons.mpr ⟨?_, ?_⟩
        · intro hmem
          rcases List.mem_map.mp hmem with ⟨kv, hkv, hfst⟩
          rcases AList.mem_set hkv with h | h
          · exact hk' (List.mem_map.mpr ⟨kv, h, hfst⟩)
          · subst h
            exact hk hfst.symm
        · simpa [AList.keys] using ih k v hnd'

theorem AList.set_of_not_mem_keys {κ ν : Type _} [DecidableEq κ] :
    ∀ {l : List (κ × ν)} {k : κ} (v : ν), k ∉ AList.keys l →
      AList.set l k v = l ++ [(k, v)] := by
  intro l
  induction l with
  | nil => intro k v _; rfl
  | cons hd tl ih =>
      obtain ⟨k', v'⟩ := hd
      intro k v hk
      simp only [AList.keys, List.map_cons, List.mem_cons] at hk
      push_neg at hk
      have hne : ¬ (k' = k) := fun h => hk.1 h.symm
      simp only [AList.set, if_neg hne, List.cons_append]
      exact congrArg _ (ih v hk.2)

theorem AList.length_erase_le {κ ν : Type _} [DecidableEq κ] :
    ∀ (l : List (κ × ν)) (k : κ), (AList.erase l k).length ≤ l.length := by
  intro l
  induction l with
  | nil => intro k; simp [AList.erase]
  | cons hd tl ih =>
      obtain ⟨k', v'⟩ := hd
      intro k
      by_cases hk : k' = k
      · simp only [AList.erase, if_pos hk, List.length_cons]
        omega
      · simp only [AList.erase, if_neg hk, List.length_cons]
        exact Nat.succ_le_succ (ih k)

theorem AList.length_erase_of_find {κ ν : Type _} [DecidableEq κ] :
    ∀ {l : List (κ × ν)} {k : κ} {v : ν}, AList.find l k = some v →
      (AList.erase l k).length + 1 = l.length := by
  intro l
  induction l with
  | nil => intro k v h; simp [AList.find] at h
  | cons hd tl ih =>
      obtain ⟨k', v'⟩ := hd
      intro k v h
      by_cases hk : k' = k
      · simp [AList.erase, if_pos hk]
      · simp only [AList.find, if_neg hk] at h
        simp only [AList.erase, if_neg hk, List.length_cons]
        exact congrArg Nat.succ (ih h)

theorem AList.mem_keys_of_mem_keys_tail {κ ν : Type _} (l : List (κ × ν)) (k : κ)
    (h : k ∈ AList.keys l.tail) : k ∈ AList.keys l := by
  cases l with
  | nil => simpa using h
  | cons hd tl =>
      simp only [List.tail_cons] at h
      simp only [AList.keys, List.map_cons, List.mem_cons]
      exact Or.inr h

theorem AList.length_set_le {κ ν : Type _} [DecidableEq κ] :
    ∀ (l : List (κ × ν)) (k : κ) (v : ν), (AList.set l k v).length ≤ l.length + 1 := by
  intro l
  induction l with
  | nil => intro k v; simp [AList.set]
  | cons hd tl ih =>
      obtain ⟨k', v'⟩ := hd
      intro k v
      by_cases hk : k' = k
      · simp [AList.set, if_pos hk]
      · simp only [AList.set, if_neg hk, List.length_cons]
        exact Nat.succ_le_succ (ih k v)

/-! ## C3: `set` eviction semantics -/

/-- **C3 (amended).**  `set` evicts the least-recently-used (head) entry
whenever the cache is at capacity — even when the key is already present (the
original claim's "only when the key is not already present" is refuted by the
counterexample); the inserted or overwritten entry always gets
`stored_at = now`; a key not already present is appended at the
most-recently-used end, while below capacity a key that is already present is
overwritten in place, keeping its recency position rather than becoming
most-recently-used (also exhibited by the counterexample); and the claim's
concrete scenario holds: with capacity 2, after inserting A then B, a hit on
A, then inserting C, entry B is evicted while A and C remain. -/
theorem lru_set_semantics {α : Type _} (c : LRUCache.Cache α) (k : String) (v : α)
    (now : ℚ) :
    (c.max_size ≤ c.cache.length →
      (LRUCache.set k v now c).cache = AList.set c.cache.tail k (v, now)) ∧
    (¬ c.max_size ≤ c.cache.length →
      (LRUCache.set k v now c).cache = AList.set c.cache k (v, now)) ∧
    AList.find (LRUCache.set k v now c).cache k = some (v, now) ∧
    (k ∉ AList.keys c.cache →
      (LRUCache.set k v now c).cache.getLast? = some (k, (v, now))) ∧
    ((LRUCache.get "A" 0 (LRUCache.set "B" (2 : ℕ) 0 (LRUCache.set "A" 1 0
        (LRUCache.init ℕ 2 3600)))).1 = some 1 ∧
      (LRUCache.set "C" 3 0 (LRUCache.get "A" 0 (LRUCache.set "B" 2 0
        (LRUCache.set "A" 1 0 (LRUCache.init ℕ 2 3600)))).2).cache =
        [("A", (1, 0)), ("C", (3, 0))]) := by
  refine ⟨?_, ?_, ?_, ?_, ?_, ?_⟩
  · intro h
    simp [LRUCache.set, if_pos h]
  · intro h
    simp [LRUCache.set, if_neg h]
  · by_cases h : c.max_size ≤ c.cache.length
    · simp only [LRUCache.set, if_pos h]
      exact AList.find_set_self ..
    · simp only [LRUCache.set, if_neg h]
      exact AList.find_set_self ..
  · intro hk
    by_cases h : c.max_size ≤ c.cache.length
    · simp only [LRUCache.set, if_pos h]
      rw [AList.set_of_not_mem_keys _
        (fun hm => hk (AList.mem_keys_of_mem_keys_tail _ _ hm))]
      exact List.getLast?_concat _
    · simp only [LRUCache.set, if_neg h]
      rw [AList.set_of_not_mem_keys _ hk]
      exact List.getLast?_concat _
  · simp [LRUCache.get, LRUCache.set, LRUCache.init, AList.find, AList.erase,
      AList.set]
    norm_num
  · simp [LRUCache.get, LRUCache.set, LRUCache.init, AList.find, AList.erase,
      AList.set]

/-- **C3, witness.**  Concrete instantiations of the amended parts: an
at-capacity overwrite rewrites over the evicted tail; a below-capacity
overwrite updates in place; `find` after `set` yields the fresh `stored_at`;
a fresh key lands at the MRU end. -/
theorem lru_set_semantics_witness :
    ((LRUCache.set "B" (20 : ℕ) 1 (LRUCache.set "B" 2 0 (LRUCache.set "A" 1 0
        (LRUCache.init ℕ 2 3600)))).cache =
      AList.set (LRUCache.set "B" (2 : ℕ) 0 (LRUCache.set "A" 1 0
        (LRUCache.init ℕ 2 3600))).cache.tail "B" (20, 1)) ∧
    ((LRUCache.set "A" (10 : ℕ) 1 (LRUCache.set "B" 2 0 (LRUCache.set "A" 1 0
        (LRUCache.init ℕ 3 3600)))).cache =
      AList.set (LRUCache.set "B" (2 : ℕ) 0 (LRUCache.set "A" 1 0
        (LRUCache.init ℕ 3 3600))).cache "A" (10, 1)) ∧
    AList.find (LRUCache.set "B" (20 : ℕ) 1 (LRUCache.set "B" 2 0
        (LRUCache.set "A" 1 0 (LRUCache.init ℕ 2 3600)))).cache "B" = some (20, 1) ∧
    ((LRUCache.set "C" (3 : ℕ) 1 (LRUCache.set "B" 2 0 (LRUCache.set "A" 1 0
        (LRUCache.init ℕ 2 3600)))).cache.getLast? = some ("C", (3, 1))) :=
  ⟨(lru_set_semantics (LRUCache.set "B" 2 0 (LRUCache.set "A" 1 0
        (LRUCache.init ℕ 2 3600))) "B" 20 1).1
      (by simp [LRUCache.set, LRUCache.init, AList.set]),
   (lru_set_semantics (LRUCache.set "B" 2 0 (LRUCache.set "A" 1 0
        (LRUCache.init ℕ 3 3600))) "A" 10 1).2.1
      (by simp [LRUCache.set, LRUCache.init, AList.set]),
   (lru_set_semantics (LRUCache.set "B" 2 0 (LRUCache.set "A" 1 0
        (LRUCache.init ℕ 2 3600))) "B" 20 1).2.2.1,
   (lru_set_semantics (LRUCache.set "B" 2 0 (LRUCache.set "A" 1 0
        (LRUCache.init ℕ 2 3600))) "C" 3 1).2.2.2.1
      (by simp [LRUCache.set, LRUCache.init, AList.set, AList.keys])⟩

/-- **C3, counterexample.**  Two divergences from the claim.  (1) With
capacity 2 and cache `[A, B]` (at capacity), `set("B", …)` — a key that is
already present — still evicts the least-recently-used entry A, refuting
"evicts only when the cache is at capacity and the key is not already
present".  (2) With capacity 3 and cache `[A, B]` (below capacity),
`set("A", …)` overwrites A in place: the entry keeps the head (LRU) position
and B remains the most-recently-used entry, refuting "the overwritten entry
becomes the most-recently-used entry" (an `OrderedDict` assignment to a
present key keeps its position). -/
theorem lru_eviction_counterexample :
    ("A" ∈ AList.keys (LRUCache.set "B" (2 : ℕ) 0 (LRUCache.set "A" 1 0
        (LRUCache.init ℕ 2 3600))).cache ∧
      "B" ∈ AList.keys (LRUCache.set "B" (2 : ℕ) 0 (LRUCache.set "A" 1 0
        (LRUCache.init ℕ 2 3600))).cache ∧
      (LRUCache.set "B" (2 : ℕ) 0 (LRUCache.set "A" 1 0
        (LRUCache.init ℕ 2 3600))).cache.length =
        (LRUCache.set "B" (2 : ℕ) 0 (LRUCache.set "A" 1 0
          (LRUCache.init ℕ 2 3600))).max_size ∧
      "A" ∉ AList.keys (LRUCache.set "B" (20 : ℕ) 1 (LRUCache.set "B" 2 0
        (LRUCache.set "A" 1 0 (LRUCache.init ℕ 2 3600)))).cache) ∧
    ((LRUCache.set "B" (2 : ℕ) 0 (LRUCache.set "A" 1 0
        (LRUCache.init ℕ 3 3600))).cache.length <
      (LRUCache.set "B" (2 : ℕ) 0 (LRUCache.set "A" 1 0
        (LRUCache.init ℕ 3 3600))).max_size ∧
      (LRUCache.set "A" (10 : ℕ) 1 (LRUCache.set "B" 2 0 (LRUCache.set "A" 1 0
        (LRUCache.init ℕ 3 3600)))).cache = [("A", (10, 1)), ("B", (2, 0))] ∧
      (LRUCache.set "A" (10 : ℕ) 1 (LRUCache.set "B" 2 0 (LRUCache.set "A" 1 0
        (LRUCache.init ℕ 3 3600)))).cache.getLast? = some ("B", (2, 0))) := by
  refine ⟨⟨?_, ?_, ?_, ?_⟩, ?_, ?_, ?_⟩ <;>
    simp [LRUCache.set, LRUCache.init, AList.set, AList.keys]

/-! ## C4: TTL expiry -/

theorem LRUCache.find_after_set {α : Type _} (c : LRUCache.Cache α) (k : String)
    (v : α) (now : ℚ) :
    AList.find (LRUCache.set k v now c).cache k = some (v, now) := by
  by_cases h : c.max_size ≤ c.cache.length
  · simp only [LRUCache.set, if_pos h]
    exact AList.find_set_self ..
  · simp only [LRUCache.set, if_neg h]
    exact AList.find_set_self ..

theorem LRUCache.set_ttl {α : Type _} (c : LRUCache.Cache α) (k : String) (v : α)
    (now : ℚ) : (LRUCache.set k v now c).ttl_seconds = c.ttl_seconds := by
  by_cases h : c.max_size ≤ c.cache.length
  · simp only [LRUCache.set, if_pos h]
  · simp only [LRUCache.set, if_neg h]

theorem LRUCache.nodup_after_set {α : Type _} (c : LRUCache.Cache α) (k : String)
    (v : α) (now : ℚ) (h : (AList.keys c.cache).Nodup) :
    (AList.keys (LRUCache.set k v now c).cache).Nodup := by
  have htail : (AList.keys c.cache.tail).Nodup := by
    cases hc : c.cache with
    | nil => simp [AList.keys]
    | cons hd tl =>
        rw [hc] at h
        simp only [AList.keys, List.map_cons] at h
        exact (List.nodup_cons.mp h).2
  by_cases hcap : c.max_size ≤ c.cache.length
  · simp only [LRUCache.set, if_pos hcap]
    exact AList.keys_set_nodup _ k (v, now) htail
  · simp only [LRUCache.set, if_neg hcap]
    exact AList.keys_set_nodup _ k (v, now) h

/-- **C4.**  For every key stored by `set` at time `t0`, a `get` of the same
key at time `t0 + ttl + 1` returns absent and physically removes the entry,
while a `get` at time `t0 + ttl - 1` returns the stored value; and in general
an entry whose age `now - stored_at` exceeds `ttl` is never returned as a hit. -/
theorem ttl_expiry {α : Type _} (c : LRUCache.Cache α) (k : String) (v : α) (t0 : ℚ)
    (hnd : (AList.keys c.cache).Nodup) :
    ((LRUCache.get k (t0 + c.ttl_seconds + 1) (LRUCache.set k v t0 c)).1 = none ∧
      AList.find
        ((LRUCache.get k (t0 + c.ttl_seconds + 1) (LRUCache.set k v t0 c)).2).cache
        k = none) ∧
    (LRUCache.get k (t0 + c.ttl_seconds - 1) (LRUCache.set k v t0 c)).1 = some v ∧
    (∀ (now ts : ℚ) (val : α), AList.find c.cache k = some (val, ts) →
      c.ttl_seconds < now - ts → (LRUCache.get k now c).1 = none) := by
  have hfind := LRUCache.find_after_set c k v t0
  have httl := LRUCache.set_ttl c k v t0
  have hnd' := LRUCache.nodup_after_set c k v t0 hnd
  refine ⟨⟨?_, ?_⟩, ?_, ?_⟩
  · simp only [LRUCache.get, hfind, httl]
    rw [if_pos (by linarith)]
  · simp only [LRUCache.get, hfind, httl]
    rw [if_pos (by linarith)]
    exact AList.find_erase_self k hnd'
  · simp only [LRUCache.get, hfind, httl]
    rw [if_neg (by linarith)]
  · intro now ts val hf hexp
    simp only [LRUCache.get, hf]
    rw [if_pos (by linarith)]

/-- **C4, witness.**  `ttl = 3600`, `set` at `t0 = 10`: a `get` at 3611 misses
and purges, a `get` at 3609 hits; a pre-stored entry of age `ttl + 5` is never
a hit. -/
theorem ttl_expiry_witness :
    (((LRUCache.get "k" (10 + (3600 : ℚ) + 1)
        (LRUCache.set "k" (7 : ℕ) 10 (LRUCache.init ℕ 100 3600))).1 = none ∧
      AList.find ((LRUCache.get "k" (10 + (3600 : ℚ) + 1)
        (LRUCache.set "k" (7 : ℕ) 10 (LRUCache.init ℕ 100 3600))).2).cache
        "k" = none) ∧
    (LRUCache.get "k" (10 + (3600 : ℚ) - 1)
        (LRUCache.set "k" (7 : ℕ) 10 (LRUCache.init ℕ 100 3600))).1 = some 7 ∧
    (∀ (now ts : ℚ) (val : ℕ),
      AList.find (LRUCache.init ℕ 100 3600).cache "k" = some (val, ts) →
      (3600 : ℚ) < now - ts →
      (LRUCache.get "k" now (LRUCache.init ℕ 100 3600)).1 = none)) :=
  ttl_expiry (LRUCache.init ℕ 100 3600) "k" 7 10 (by simp [LRUCache.init, AList.keys])

/-! ## C5: the size bound -/

theorem LRUCache.apply_max_size {α : Type _} (op : LRUCache.Op α)
    (c : LRUCache.Cache α) : (LRUCache.Op.apply op c).max_size = c.max_size := by
  cases op with
  | get k now =>
      simp only [LRUCache.Op.apply, LRUCache.get]
      cases AList.find c.cache k with
      | none => rfl
      | some e =>
          dsimp only
          split <;> rfl
  | set k v now =>
      simp only [LRUCache.Op.apply, LRUCache.set]
      split <;> rfl
  | clear => rfl
  | cleanup now => rfl

theorem LRUCache.apply_size_le {α : Type _} (op : LRUCache.Op α)
    (c : LRUCache.Cache α) (h : c.cache.length ≤ c.max_size) (h1 : 1 ≤ c.max_size) :
    (LRUCache.Op.apply op c).cache.length ≤ c.max_size := by
  cases op with
  | get k now =>
      simp only [LRUCache.Op.apply, LRUCache.get]
      cases hf : AList.find c.cache k with
      | none => exact h
      | some e =>
          dsimp only
          split
          · exact le_trans (AList.length_erase_le _ _) h
          · have hlen := AList.length_erase_of_find hf
            simp only [List.length_append, List.length_cons, List.length_nil]
            omega
  | set k v now =>
      simp only [LRUCache.Op.apply, LRUCache.set]
      split
      · rename_i hcap
        have hlen : c.cache.length = c.max_size := le_antisymm h hcap
        have htail : c.cache.tail.length = c.cache.length - 1 := List.length_tail _
        have hset := AList.length_set_le c.cache.tail k (v, now)
        show (AList.set c.cache.tail k (v, now)).length ≤ c.max_size
        omega
      · have hset := AList.length_set_le c.cache k (v, now)
        show (AList.set c.cache k (v, now)).length ≤ c.max_size
        omega
  | clear =>
      simp [LRUCache.Op.apply, LRUCache.clear]
  | cleanup now =>
      simp only [LRUCache.Op.apply, LRUCache.cleanup_expired]
      exact le_trans (List.length_filter_le _ _) h

theorem LRUCache.execOps_size {α : Type _} :
    ∀ (ops : List (LRUCache.Op α)) (c : LRUCache.Cache α),
      c.cache.length ≤ c.max_size → 1 ≤ c.max_size →
      (LRUCache.execOps ops c).cache.length ≤ c.max_size := by
  intro ops
  induction ops with
  | nil => intro c h _; exact h
  | cons op rest ih =>
      intro c h h1
      have hm := LRUCache.apply_max_size op c
      have hs := LRUCache.apply_size_le op c h h1
      have hrec := ih (LRUCache.Op.apply op c) (by rw [hm]; exact hs) (by rw [hm]; exact h1)
      rw [hm] at hrec
      exact hrec

/-- **C5.**  For every sequence of cache operations (`get`, `set`, `clear`,
`cleanup_expired`) starting from an empty cache with capacity `max_size ≥ 1`
(on a zero-capacity cache the source's eviction `next(iter(self.cache))`
would raise `StopIteration` at the first `set`), the number of stored entries
never exceeds `max_size` after any operation, i.e. after any prefix of the
sequence. -/
theorem cache_size_bound {α : Type _} (ops : List (LRUCache.Op α)) (max_size : ℕ)
    (ttl : ℚ) (h1 : 1 ≤ max_size) (n : ℕ) :
    (LRUCache.execOps (ops.take n)
      (LRUCache.init α max_size ttl)).cache.length ≤ max_size :=
  LRUCache.execOps_size (ops.take n) (LRUCache.init α max_size ttl)
    (by simp [LRUCache.init]) h1

/-- **C5, witness.**  A concrete six-operation trace on a capacity-2 cache. -/
theorem cache_size_bound_witness :
    (1 : ℕ) ≤ 2 ∧
    (LRUCache.execOps
      (([LRUCache.Op.set "a" (1 : ℕ) 0, LRUCache.Op.set "b" 2 0,
         LRUCache.Op.set "c" 3 1, LRUCache.Op.get "a" 1,
         LRUCache.Op.cleanup 2, LRUCache.Op.clear]).take 6)
      (LRUCache.init ℕ 2 3600)).cache.length ≤ 2 :=
  ⟨by norm_num,
   cache_size_bound
     [LRUCache.Op.set "a" (1 : ℕ) 0, LRUCache.Op.set "b" 2 0,
      LRUCache.Op.set "c" 3 1, LRUCache.Op.get "a" 1,
      LRUCache.Op.cleanup 2, LRUCache.Op.clear] 2 3600 (by norm_num) 6⟩

/-! ## C8: the 95th-percentile selection -/

theorem MetricsCollector.sortQ_length (l : List ℚ) :
    (MetricsCollector.sortQ l).length = l.length := by
  induction l with
  | nil => rfl
  | cons x rest ih =>
      have hins : ∀ (y : ℚ) (m : List ℚ),
          (MetricsCollector.sortQ.insortQ y m).length = m.length + 1 := by
        intro y m
        induction m with
        | nil => rfl
        | cons z m' ihm =>
            by_cases h : y ≤ z
            · simp [MetricsCollector.sortQ.insortQ, h]
            · simp only [MetricsCollector.sortQ.insortQ, if_neg h, List.length_cons, ihm]
      simp only [MetricsCollector.sortQ, hins, List.length_cons, ih]

theorem MetricsCollector.idx_eq (n : ℕ) :
    (⌊(0.95 : ℚ) * (n : ℚ)⌋).toNat = 19 * n / 20 := by
  have h : (0.95 : ℚ) * (n : ℚ) = ((19 * n : ℕ) : ℚ) / ((20 : ℕ) : ℚ) := by
    push_cast
    norm_num
    ring
  rw [h, Rat.floor_natCast_div_natCast]
  omega

/-- **C8.**  For every non-empty latency window of `n` recorded durations
(every reachable window has `n ≤ 1000`, the `deque` bound, on which the
model's index agrees with the float computation), the snapshot's
95th-percentile latency is the element at index `⌊0.95 * n⌋` of the sorted
window, clamped to the last element when that index would exceed bounds — and
the clamp in fact never fires for non-empty windows; in particular, for
recorded durations 100,200,300,400,500 ms the reported p95 is 500 ms. -/
theorem p95_selection (ts : List ℚ) (hne : ts ≠ []) (hwin : ts.length ≤ 1000) :
    (MetricsCollector.p95_of ts =
      if (⌊(0.95 : ℚ) * (ts.length : ℚ)⌋).toNat < (MetricsCollector.sortQ ts).length
      then (MetricsCollector.sortQ ts).getD (⌊(0.95 : ℚ) * (ts.length : ℚ)⌋).toNat 0
      else (MetricsCollector.sortQ ts).getLastD 0) ∧
    (⌊(0.95 : ℚ) * (ts.length : ℚ)⌋).toNat < (MetricsCollector.sortQ ts).length ∧
    MetricsCollector.p95_response_time_ms
      { request_count := [("POST /generate", 5)], error_count := [],
        response_times := [("POST /generate", [1/10, 2/10, 3/10, 4/10, 5/10])],
        window_size := 1000, openai_calls := 0, openai_errors := 0,
        openai_tokens_used := 0, openai_cost := 0, cache_hits := 0,
        cache_misses := 0, start_time := 0 } = [("POST /generate", 500)] := by
  have hrw := MetricsCollector.idx_eq ts.length
  have hlen := MetricsCollector.sortQ_length ts
  refine ⟨?_, ?_, ?_⟩
  · rw [hrw]
    simp only [MetricsCollector.p95_of, hlen]
  · rw [hrw, hlen]
    have hpos : 0 < ts.length := List.length_pos.mpr hne
    omega
  · simp [MetricsCollector.p95_response_time_ms, MetricsCollector.p95_of,
      MetricsCollector.sortQ, MetricsCollector.sortQ.insortQ, round2, roundHalfEven]
    norm_num [MetricsCollector.sortQ.insortQ, round2, roundHalfEven]

/-- **C8, witness.**  The five-element window itself. -/
theorem p95_selection_witness :
    ([(1 : ℚ)/10, 2/10, 3/10, 4/10, 5/10] ≠ ([] : List ℚ) ∧
      ([(1 : ℚ)/10, 2/10, 3/10, 4/10, 5/10] : List ℚ).length ≤ 1000) ∧
    MetricsCollector.p95_of [1/10, 2/10, 3/10, 4/10, 5/10] =
      (if (⌊(0.95 : ℚ) * (([(1 : ℚ)/10, 2/10, 3/10, 4/10, 5/10] : List ℚ).length : ℚ)⌋).toNat <
          (MetricsCollector.sortQ [1/10, 2/10, 3/10, 4/10, 5/10]).length
       then (MetricsCollector.sortQ [1/10, 2/10, 3/10, 4/10, 5/10]).getD
          (⌊(0.95 : ℚ) * (([(1 : ℚ)/10, 2/10, 3/10, 4/10, 5/10] : List ℚ).length : ℚ)⌋).toNat 0
       else (MetricsCollector.sortQ [1/10, 2/10, 3/10, 4/10, 5/10]).getLastD 0) :=
  ⟨⟨by simp, by simp⟩,
   (p95_selection [1/10, 2/10, 3/10, 4/10, 5/10] (by simp) (by simp)).1⟩

/-! ## C9: health thresholds -/

/-- **C9 (amended).**  For every metrics state, the health report is unhealthy
when the reported global error rate exceeds 10% (for example 11 errors out of
100 requests); and when the reported error rate is in (5%, 10%] (for example 6
errors out of 100 requests) **and the upstream condition does not
independently fail** (no OpenAI calls yet, or OpenAI success rate ≥ 90%), the
report is healthy but carries a warning.  (The original claim omitted the
upstream proviso; the counterexample shows it is necessary.) -/
theorem health_thresholds (m1 m2 : MetricsCollector.State)
    (h10 : 10 < MetricsCollector.error_rate_percent m1)
    (h5a : 5 < MetricsCollector.error_rate_percent m2)
    (h5b : MetricsCollector.error_rate_percent m2 ≤ 10)
    (hup : m2.openai_calls = 0 ∨ 90 ≤ MetricsCollector.success_rate_percent m2) :
    (MetricsCollector.get_health_status m1).1 = false ∧
    (MetricsCollector.get_health_status m2).1 = true ∧
    (MetricsCollector.get_health_status m2).2 ≠ [] := by
  refine ⟨?_, ?_, ?_⟩
  · simp only [MetricsCollector.get_health_status, if_pos h10]
    split
    · rfl
    · rfl
  · have hno : ¬ (0 < m2.openai_calls ∧ MetricsCollector.success_rate_percent m2 < 90) := by
      rcases hup with h | h
      · intro hc; exact Nat.lt_irrefl 0 (h ▸ hc.1)
      · intro hc; exact absurd hc.2 (not_lt.mpr h)
    simp only [MetricsCollector.get_health_status, if_neg (not_lt.mpr h5b), if_pos h5a,
      if_neg hno]
  · have hno : ¬ (0 < m2.openai_calls ∧ MetricsCollector.success_rate_percent m2 < 90) := by
      rcases hup with h | h
      · intro hc; exact Nat.lt_irrefl 0 (h ▸ hc.1)
      · intro hc; exact absurd hc.2 (not_lt.mpr h)
    simp only [MetricsCollector.get_health_status, if_neg (not_lt.mpr h5b), if_pos h5a,
      if_neg hno]
    simp

/-- **C9, witness.**  100 requests with 11 errors → unhealthy; 100 requests
with 6 errors and no upstream calls → healthy with a warning. -/
theorem health_thresholds_witness :
    (10 < MetricsCollector.error_rate_percent
        { request_count := [("POST /generate", 100)],
          error_count := [("POST /generate", 11)], response_times := [],
          window_size := 1000, openai_calls := 0, openai_errors := 0,
          openai_tokens_used := 0, openai_cost := 0, cache_hits := 0,
          cache_misses := 0, start_time := 0 } ∧
      5 < MetricsCollector.error_rate_percent
        { request_count := [("POST /generate", 100)],
          error_count := [("POST /generate", 6)], response_times := [],
          window_size := 1000, openai_calls := 0, openai_errors := 0,
          openai_tokens_used := 0, openai_cost := 0, cache_hits := 0,
          cache_misses := 0, start_time := 0 }) ∧
    ((MetricsCollector.get_health_status
        { request_count := [("POST /generate", 100)],
          error_count := [("POST /generate", 11)], response_times := [],
          window_size := 1000, openai_calls := 0, openai_errors := 0,
          openai_tokens_used := 0, openai_cost := 0, cache_hits := 0,
          cache_misses := 0, start_time := 0 }).1 = false ∧
      (MetricsCollector.get_health_status
        { request_count := [("POST /generate", 100)],
          error_count := [("POST /generate", 6)], response_times := [],
          window_size := 1000, openai_calls := 0, openai_errors := 0,
          openai_tokens_used := 0, openai_cost := 0, cache_hits := 0,
          cache_misses := 0, start_time := 0 }).1 = true ∧
      (MetricsCollector.get_health_status
        { request_count := [("POST /generate", 100)],
          error_count := [("POST /generate", 6)], response_times := [],
          window_size := 1000, openai_calls := 0, openai_errors := 0,
          openai_tokens_used := 0, openai_cost := 0, cache_hits := 0,
          cache_misses := 0, start_time := 0 }).2 ≠ []) :=
  ⟨⟨by norm_num [MetricsCollector.error_rate_percent, MetricsCollector.total_errors,
      MetricsCollector.total_requests, round2, roundHalfEven],
    by norm_num [MetricsCollector.error_rate_percent, MetricsCollector.total_errors,
      MetricsCollector.total_requests, round2, roundHalfEven]⟩,
   health_thresholds _ _
    (by norm_num [MetricsCollector.error_rate_percent, MetricsCollector.total_errors,
      MetricsCollector.total_requests, round2, roundHalfEven])
    (by norm_num [MetricsCollector.error_rate_percent, MetricsCollector.total_errors,
      MetricsCollector.total_requests, round2, roundHalfEven])
    (by norm_num [MetricsCollector.error_rate_percent, MetricsCollector.total_errors,
      MetricsCollector.total_requests, round2, roundHalfEven])
    (Or.inl rfl)⟩

/-- **C9, counterexample.**  A state with a 6% error rate (between 5% and
10%) but a failed upstream call: the claim predicts `healthy = true`, the code
reports `healthy = false` because the OpenAI success rate (0%) is below 90%. -/
theorem health_upstream_counterexample :
    5 < MetricsCollector.error_rate_percent
      { request_count := [("POST /generate", 100)],
        error_count := [("POST /generate", 6)], response_times := [],
        window_size := 1000, openai_calls := 1, openai_errors := 1,
        openai_tokens_used := 0, openai_cost := 0, cache_hits := 0,
        cache_misses := 0, start_time := 0 } ∧
    MetricsCollector.error_rate_percent
      { request_count := [("POST /generate", 100)],
        error_count := [("POST /generate", 6)], response_times := [],
        window_size := 1000, openai_calls := 1, openai_errors := 1,
        openai_tokens_used := 0, openai_cost := 0, cache_hits := 0,
        cache_misses := 0, start_time := 0 } ≤ 10 ∧
    (MetricsCollector.get_health_status
      { request_count := [("POST /generate", 100)],
        error_count := [("POST /generate", 6)], response_times := [],
        window_size := 1000, openai_calls := 1, openai_errors := 1,
        openai_tokens_used := 0, openai_cost := 0, cache_hits := 0,
        cache_misses := 0, start_time := 0 }).1 = false := by
  refine ⟨?_, ?_, ?_⟩ <;>
    norm_num [MetricsCollector.get_health_status, MetricsCollector.error_rate_percent,
      MetricsCollector.success_rate_percent, MetricsCollector.total_errors,
      MetricsCollector.total_requests, MetricsCollector.avg_response_time_ms,
      round2, roundHalfEven]

/-! ## C7: fingerprint canonicalization -/

theorem Fingerprint.charOfNat_toNat {n : ℕ} (h : n.isValidChar) :
    (Char.ofNat n).toNat = n := by
  unfold Char.ofNat
  rw [dif_pos h]
  unfold Char.ofNatAux Char.toNat
  simp [UInt32.toNat, BitVec.toNat_ofNatLt]

theorem Fingerprint.char_valid_range (c : Char) :
    c.toNat < 0xd800 ∨ (0xdfff < c.toNat ∧ c.toNat < 0x110000) := by
  rcases c.valid with h | h
  · left; exact_mod_cast h
  · right; exact ⟨by exact_mod_cast h.1, by exact_mod_cast h.2⟩

theorem Fingerprint.hexDigit_toNat {n : ℕ} (h : n < 16) :
    (Fingerprint.hexDigit n).toNat = if n < 10 then 48 + n else 87 + n := by
  unfold Fingerprint.hexDigit
  by_cases h10 : n < 10
  · rw [if_pos h10, if_pos h10]
    exact Fingerprint.charOfNat_toNat (Or.inl (by omega))
  · rw [if_neg h10, if_neg h10]
    exact Fingerprint.charOfNat_toNat (Or.inl (by omega))

theorem Fingerprint.hexVal_hexDigit {n : ℕ} (h : n < 16) :
    Fingerprint.hexVal (Fingerprint.hexDigit n) = n := by
  unfold Fingerprint.hexVal
  rw [Fingerprint.hexDigit_toNat h]
  by_cases h10 : n < 10
  · rw [if_pos h10, if_pos (by omega)]
    omega
  · rw [if_neg h10, if_neg (by omega)]
    omega

theorem Fingerprint.hex4_recombine {n : ℕ} (h : n < 0x10000) :
    Fingerprint.hexVal (Fingerprint.hexDigit (n / 4096 % 16)) * 4096 +
      Fingerprint.hexVal (Fingerprint.hexDigit (n / 256 % 16)) * 256 +
      Fingerprint.hexVal (Fingerprint.hexDigit (n / 16 % 16)) * 16 +
      Fingerprint.hexVal (Fingerprint.hexDigit (n % 16)) = n := by
  rw [Fingerprint.hexVal_hexDigit (Nat.mod_lt _ (by norm_num)),
      Fingerprint.hexVal_hexDigit (Nat.mod_lt _ (by norm_num)),
      Fingerprint.hexVal_hexDigit (Nat.mod_lt _ (by norm_num)),
      Fingerprint.hexVal_hexDigit (Nat.mod_lt _ (by norm_num))]
  omega

theorem Fingerprint.unescape_quote (fuel : ℕ) (r : List Char) :
    Fingerprint.unescapeF (fuel + 1) ('"' :: r) = some ([], r) := by
  simp [Fingerprint.unescapeF]

theorem Fingerprint.unescape_plain {c : Char} (h1 : ¬ c = '"') (h2 : ¬ c = '\\')
    (fuel : ℕ) (l : List Char) :
    Fingerprint.unescapeF (fuel + 1) (c :: l) =
      (Fingerprint.unescapeF fuel l).map fun p => (c :: p.1, p.2) := by
  simp only [Fingerprint.unescapeF, if_neg h1, if_neg h2]

theorem Fingerprint.unescape_short (d : Char) (hd : ¬ d = 'u') (fuel : ℕ)
    (l : List Char) :
    Fingerprint.unescapeF (fuel + 1) ('\\' :: d :: l) =
      (Fingerprint.unescapeF fuel l).map fun p => (Fingerprint.unshort d :: p.1, p.2) := by
  simp only [Fingerprint.unescapeF, if_neg (by decide : ¬ ('\\' : Char) = '"'),
    if_pos (by decide : ('\\' : Char) = '\\'), if_neg hd]
  simp

theorem Fingerprint.unescape_uni (h1 h2 h3 h4 : Char) (fuel : ℕ) (l : List Char)
    (hn : ¬ (0xd800 ≤ Fingerprint.hexVal h1 * 4096 + Fingerprint.hexVal h2 * 256 +
        Fingerprint.hexVal h3 * 16 + Fingerprint.hexVal h4 ∧
      Fingerprint.hexVal h1 * 4096 + Fingerprint.hexVal h2 * 256 +
        Fingerprint.hexVal h3 * 16 + Fingerprint.hexVal h4 < 0xdc00)) :
    Fingerprint.unescapeF (fuel + 1) ('\\' :: 'u' :: h1 :: h2 :: h3 :: h4 :: l) =
      (Fingerprint.unescapeF fuel l).map fun p =>
        (Char.ofNat (Fingerprint.hexVal h1 * 4096 + Fingerprint.hexVal h2 * 256 +
          Fingerprint.hexVal h3 * 16 + Fingerprint.hexVal h4) :: p.1, p.2) := by
  simp only [Fingerprint.unescapeF, if_neg (by decide : ¬ ('\\' : Char) = '"'),
    if_pos (by decide : ('\\' : Char) = '\\'), if_pos (by decide : ('u' : Char) = 'u'),
    if_neg hn, if_true]

theorem Fingerprint.unescape_pair (h1 h2 h3 h4 g1 g2 g3 g4 : Char) (fuel : ℕ)
    (l : List Char)
    (hs : 0xd800 ≤ Fingerprint.hexVal h1 * 4096 + Fingerprint.hexVal h2 * 256 +
        Fingerprint.hexVal h3 * 16 + Fingerprint.hexVal h4 ∧
      Fingerprint.hexVal h1 * 4096 + Fingerprint.hexVal h2 * 256 +
        Fingerprint.hexVal h3 * 16 + Fingerprint.hexVal h4 < 0xdc00) :
    Fingerprint.unescapeF (fuel + 1) ('\\' :: 'u' :: h1 :: h2 :: h3 :: h4 ::
        '\\' :: 'u' :: g1 :: g2 :: g3 :: g4 :: l) =
      (Fingerprint.unescapeF fuel l).map fun p =>
        (Char.ofNat (0x10000 +
          (Fingerprint.hexVal h1 * 4096 + Fingerprint.hexVal h2 * 256 +
            Fingerprint.hexVal h3 * 16 + Fingerprint.hexVal h4 - 0xd800) * 0x400 +
          (Fingerprint.hexVal g1 * 4096 + Fingerprint.hexVal g2 * 256 +
            Fingerprint.hexVal g3 * 16 + Fingerprint.hexVal g4 - 0xdc00)) :: p.1,
         p.2) := by
  simp only [Fingerprint.unescapeF, if_neg (by decide : ¬ ('\\' : Char) = '"'),
    if_pos (by decide : ('\\' : Char) = '\\'), if_pos (by decide : ('u' : Char) = 'u'),
    if_pos hs, if_pos (by decide : ('\\' : Char) = '\\' ∧ ('u' : Char) = 'u')]
  simp

theorem Fingerprint.unescapeF_escape :
    ∀ (a : List Char) (fuel : ℕ) (r : List Char), a.length ≤ fuel →
      Fingerprint.unescapeF (fuel + 1) (Fingerprint.escape a ++ '"' :: r) =
        some (a, r) := by
  intro a
  induction a with
  | nil =>
      intro fuel r _
      simpa [Fingerprint.escape] using Fingerprint.unescape_quote fuel r
  | cons c as ih =>
      intro fuel r hlen
      simp only [List.length_cons] at hlen
      obtain ⟨f, rfl⟩ : ∃ f, fuel = f + 1 := ⟨fuel - 1, by omega⟩
      have hlen' : as.length ≤ f := by omega
      rw [show Fingerprint.escape (c :: as) =
        Fingerprint.escapeChar c ++ Fingerprint.escape as from rfl, List.append_assoc]
      by_cases hc1 : c = '"'
      · subst hc1
        rw [show Fingerprint.escapeChar '"' ++ (Fingerprint.escape as ++ '"' :: r) =
          '\\' :: '"' :: (Fingerprint.escape as ++ '"' :: r) from rfl]
        rw [Fingerprint.unescape_short '\"' (by decide) (f + 1), ih f r hlen']
        simp [Fingerprint.unshort]
      by_cases hc2 : c = '\\'
      · subst hc2
        rw [show Fingerprint.escapeChar '\\' ++ (Fingerprint.escape as ++ '"' :: r) =
          '\\' :: '\\' :: (Fingerprint.escape as ++ '"' :: r) from rfl]
        rw [Fingerprint.unescape_short '\\' (by decide) (f + 1), ih f r hlen']
        simp [Fingerprint.unshort]
      by_cases hc3 : c = '\x08'
      · subst hc3
        rw [show Fingerprint.escapeChar '\x08' ++ (Fingerprint.escape as ++ '"' :: r) =
          '\\' :: 'b' :: (Fingerprint.escape as ++ '"' :: r) from rfl]
        rw [Fingerprint.unescape_short 'b' (by decide) (f + 1), ih f r hlen']
        simp [Fingerprint.unshort]
      by_cases hc4 : c = '\x0c'
      · subst hc4
        rw [show Fingerprint.escapeChar '\x0c' ++ (Fingerprint.escape as ++ '"' :: r) =
          '\\' :: 'f' :: (Fingerprint.escape as ++ '"' :: r) from rfl]
        rw [Fingerprint.unescape_short 'f' (by decide) (f + 1), ih f r hlen']
        simp [Fingerprint.unshort]
      by_cases hc5 : c = '\n'
      · subst hc5
        rw [show Fingerprint.escapeChar '\n' ++ (Fingerprint.escape as ++ '"' :: r) =
          '\\' :: 'n' :: (Fingerprint.escape as ++ '"' :: r) from rfl]
        rw [Fingerprint.unescape_short 'n' (by decide) (f + 1), ih f r hlen']
        simp [Fingerprint.unshort]
      by_cases hc6 : c = '\r'
      · subst hc6
        rw [show Fingerprint.escapeChar '\r' ++ (Fingerprint.escape as ++ '"' :: r) =
          '\\' :: 'r' :: (Fingerprint.escape as ++ '"' :: r) from rfl]
        rw [Fingerprint.unescape_short 'r' (by decide) (f + 1), ih f r hlen']
        simp [Fingerprint.unshort]
      by_cases hc7 : c = '\t'
      · subst hc7
        rw [show Fingerprint.escapeChar '\t' ++ (Fingerprint.escape as ++ '"' :: r) =
          '\\' :: 't' :: (Fingerprint.escape as ++ '"' :: r) from rfl]
        rw [Fingerprint.unescape_short 't' (by decide) (f + 1), ih f r hlen']
        simp [Fingerprint.unshort]
      by_cases hc8 : c.toNat < 0x20 ∨ 0x7e < c.toNat
      · by_cases hc9 : c.toNat < 0x10000
        · have hesc : Fingerprint.escapeChar c = Fingerprint.uEscape c.toNat := by
            simp [Fingerprint.escapeChar, hc1, hc2, hc3, hc4, hc5, hc6, hc7, hc8, hc9]
          rw [hesc]
          rw [show Fingerprint.uEscape c.toNat ++ (Fingerprint.escape as ++ '"' :: r) =
            '\\' :: 'u' :: Fingerprint.hexDigit (c.toNat / 4096 % 16) ::
            Fingerprint.hexDigit (c.toNat / 256 % 16) ::
            Fingerprint.hexDigit (c.toNat / 16 % 16) ::
            Fingerprint.hexDigit (c.toNat % 16) ::
            (Fingerprint.escape as ++ '"' :: r) from rfl]
          have hrec := Fingerprint.hex4_recombine hc9
          rw [Fingerprint.unescape_uni (Fingerprint.hexDigit (c.toNat / 4096 % 16))
            (Fingerprint.hexDigit (c.toNat / 256 % 16))
            (Fingerprint.hexDigit (c.toNat / 16 % 16))
            (Fingerprint.hexDigit (c.toNat % 16)) (f + 1) _
            (by rw [hrec]; rcases Fingerprint.char_valid_range c with h | h <;> omega)]
          rw [ih f r hlen', hrec, Char.ofNat_toNat]
          rfl
        · have hval := Fingerprint.char_valid_range c
          have hesc : Fingerprint.escapeChar c =
              Fingerprint.uEscape (0xd800 + (c.toNat - 0x10000) / 0x400) ++
              Fingerprint.uEscape (0xdc00 + (c.toNat - 0x10000) % 0x400) := by
            simp [Fingerprint.escapeChar, hc1, hc2, hc3, hc4, hc5, hc6, hc7, hc8, hc9]
          rw [hesc]
          rw [show (Fingerprint.uEscape (0xd800 + (c.toNat - 0x10000) / 0x400) ++
              Fingerprint.uEscape (0xdc00 + (c.toNat - 0x10000) % 0x400)) ++
              (Fingerprint.escape as ++ '"' :: r) =
            '\\' :: 'u' ::
            Fingerprint.hexDigit ((0xd800 + (c.toNat - 0x10000) / 0x400) / 4096 % 16) ::
            Fingerprint.hexDigit ((0xd800 + (c.toNat - 0x10000) / 0x400) / 256 % 16) ::
            Fingerprint.hexDigit ((0xd800 + (c.toNat - 0x10000) / 0x400) / 16 % 16) ::
            Fingerprint.hexDigit ((0xd800 + (c.toNat - 0x10000) / 0x400) % 16) ::
            '\\' :: 'u' ::
            Fingerprint.hexDigit ((0xdc00 + (c.toNat - 0x10000) % 0x400) / 4096 % 16) ::
            Fingerprint.hexDigit ((0xdc00 + (c.toNat - 0x10000) % 0x400) / 256 % 16) ::
            Fingerprint.hexDigit ((0xdc00 + (c.toNat - 0x10000) % 0x400) / 16 % 16) ::
            Fingerprint.hexDigit ((0xdc00 + (c.toNat - 0x10000) % 0x400) % 16) ::
            (Fingerprint.escape as ++ '"' :: r) from rfl]
          have ht17 : c.toNat < 0x110000 := by rcases hval with h | h <;> omega
          have hq400 : (c.toNat - 0x10000) / 0x400 < 0x400 := by omega
          have hrec1 := Fingerprint.hex4_recombine
            (n := 0xd800 + (c.toNat - 0x10000) / 0x400) (by omega)
          have hrec2 := Fingerprint.hex4_recombine
            (n := 0xdc00 + (c.toNat - 0x10000) % 0x400) (by omega)
          rw [Fingerprint.unescape_pair
            (Fingerprint.hexDigit ((0xd800 + (c.toNat - 0x10000) / 0x400) / 4096 % 16))
            (Fingerprint.hexDigit ((0xd800 + (c.toNat - 0x10000) / 0x400) / 256 % 16))
            (Fingerprint.hexDigit ((0xd800 + (c.toNat - 0x10000) / 0x400) / 16 % 16))
            (Fingerprint.hexDigit ((0xd800 + (c.toNat - 0x10000) / 0x400) % 16))
            (Fingerprint.hexDigit ((0xdc00 + (c.toNat - 0x10000) % 0x400) / 4096 % 16))
            (Fingerprint.hexDigit ((0xdc00 + (c.toNat - 0x10000) % 0x400) / 256 % 16))
            (Fingerprint.hexDigit ((0xdc00 + (c.toNat - 0x10000) % 0x400) / 16 % 16))
            (Fingerprint.hexDigit ((0xdc00 + (c.toNat - 0x10000) % 0x400) % 16)) (f + 1) _
            (by rw [hrec1]; omega)]
          rw [ih f r hlen', hrec1, hrec2]
          have hcp : 0x10000 + (0xd800 + (c.toNat - 0x10000) / 0x400 - 0xd800) * 0x400 +
              (0xdc00 + (c.toNat - 0x10000) % 0x400 - 0xdc00) = c.toNat := by omega
          rw [hcp, Char.ofNat_toNat]
          rfl
      · have hesc : Fingerprint.escapeChar c = [c] := by
          simp [Fingerprint.escapeChar, hc1, hc2, hc3, hc4, hc5, hc6, hc7, hc8]
        rw [hesc]
        rw [show ([c] : List Char) ++ (Fingerprint.escape as ++ '"' :: r) =
          c :: (Fingerprint.escape as ++ '"' :: r) from rfl]
        rw [Fingerprint.unescape_plain hc1 hc2 (f + 1), ih f r hlen']
        rfl

theorem Fingerprint.escape_decode {a b r₁ r₂ : List Char}
    (h : Fingerprint.escape a ++ '"' :: r₁ = Fingerprint.escape b ++ '"' :: r₂) :
    a = b ∧ r₁ = r₂ := by
  have ha := Fingerprint.unescapeF_escape a (a.length + b.length) r₁ (by omega)
  have hb := Fingerprint.unescapeF_escape b (a.length + b.length) r₂ (by omega)
  rw [h, hb] at ha
  injection ha with ha
  injection ha with h1 h2
  exact ⟨h1.symm, h2.symm⟩

theorem Fingerprint.quoteStr_append (s : String) (X : List Char) :
    Fingerprint.quoteStr s ++ X = '"' :: (Fingerprint.escape s.data ++ '"' :: X) := by
  simp [Fingerprint.quoteStr]

theorem Fingerprint.entry_decode {k₁ k₂ v₁ v₂ : String} {T₁ T₂ : List Char}
    (h : Fingerprint.quoteStr k₁ ++ ':' :: ' ' :: (Fingerprint.quoteStr v₁ ++ T₁) =
      Fingerprint.quoteStr k₂ ++ ':' :: ' ' :: (Fingerprint.quoteStr v₂ ++ T₂)) :
    k₁ = k₂ ∧ v₁ = v₂ ∧ T₁ = T₂ := by
  simp only [Fingerprint.quoteStr_append] at h
  injection h with hq h
  obtain ⟨hk, h⟩ := Fingerprint.escape_decode h
  injection h with h1 h
  injection h with h2 h
  injection h with h3 h
  obtain ⟨hv, h⟩ := Fingerprint.escape_decode h
  exact ⟨String.ext hk, String.ext hv, h⟩

theorem Fingerprint.items_inj :
    ∀ (l₁ l₂ : List (String × String)), Fingerprint.items l₁ = Fingerprint.items l₂ →
      l₁ = l₂ := by
  intro l₁
  induction l₁ with
  | nil =>
      intro l₂ h
      cases l₂ with
      | nil => rfl
      | cons p r =>
          obtain ⟨k, v⟩ := p
          cases r <;> simp [Fingerprint.items, Fingerprint.quoteStr] at h
  | cons p r₁ ih =>
      intro l₂ h
      obtain ⟨k₁, v₁⟩ := p
      cases l₂ with
      | nil =>
          cases r₁ <;> simp [Fingerprint.items, Fingerprint.quoteStr] at h
      | cons q r₂ =>
          obtain ⟨k₂, v₂⟩ := q
          cases r₁ with
          | nil =>
              cases r₂ with
              | nil =>
                  have h' : Fingerprint.quoteStr k₁ ++ ':' :: ' ' ::
                      (Fingerprint.quoteStr v₁ ++ ([] : List Char)) =
                    Fingerprint.quoteStr k₂ ++ ':' :: ' ' ::
                      (Fingerprint.quoteStr v₂ ++ ([] : List Char)) := by
                    simpa [Fingerprint.items] using h
                  obtain ⟨hk, hv, -⟩ := Fingerprint.entry_decode h'
                  rw [hk, hv]
              | cons a' b' =>
                  have h' : Fingerprint.quoteStr k₁ ++ ':' :: ' ' ::
                      (Fingerprint.quoteStr v₁ ++ ([] : List Char)) =
                    Fingerprint.quoteStr k₂ ++ ':' :: ' ' ::
                      (Fingerprint.quoteStr v₂ ++
                        (',' :: ' ' :: Fingerprint.items (a' :: b'))) := by
                    simpa [Fingerprint.items] using h
                  obtain ⟨-, -, hT⟩ := Fingerprint.entry_decode h'
                  exact absurd hT (by simp)
          | cons a b =>
              cases r₂ with
              | nil =>
                  have h' : Fingerprint.quoteStr k₁ ++ ':' :: ' ' ::
                      (Fingerprint.quoteStr v₁ ++
                        (',' :: ' ' :: Fingerprint.items (a :: b))) =
                    Fingerprint.quoteStr k₂ ++ ':' :: ' ' ::
                      (Fingerprint.quoteStr v₂ ++ ([] : List Char)) := by
                    simpa [Fingerprint.items] using h
                  obtain ⟨-, -, hT⟩ := Fingerprint.entry_decode h'
                  exact absurd hT (by simp)
              | cons a' b' =>
                  have h' : Fingerprint.quoteStr k₁ ++ ':' :: ' ' ::
                      (Fingerprint.quoteStr v₁ ++
                        (',' :: ' ' :: Fingerprint.items (a :: b))) =
                    Fingerprint.quoteStr k₂ ++ ':' :: ' ' ::
                      (Fingerprint.quoteStr v₂ ++
                        (',' :: ' ' :: Fingerprint.items (a' :: b'))) := by
                    simpa [Fingerprint.items] using h
                  obtain ⟨hk, hv, hT⟩ := Fingerprint.entry_decode h'
                  injection hT with hT1 hT
                  injection hT with hT2 hT
                  rw [hk, hv, ih _ hT]

theorem Fingerprint.dumpsSorted_inj {l₁ l₂ : List (String × String)}
    (h : Fingerprint.dumpsSorted l₁ = Fingerprint.dumpsSorted l₂) :
    Fingerprint.sortByKey l₁ = Fingerprint.sortByKey l₂ := by
  unfold Fingerprint.dumpsSorted at h
  injection h with hb h
  exact Fingerprint.items_inj _ _ (List.append_cancel_right h)

theorem Fingerprint.insertSorted_perm (p : String × String) :
    ∀ (l : List (String × String)), (Fingerprint.insertSorted p l).Perm (p :: l) := by
  intro l
  induction l with
  | nil => simp [Fingerprint.insertSorted]
  | cons q m ih =>
      by_cases h : p.1 ≤ q.1
      · simp [Fingerprint.insertSorted, h]
      · simp only [Fingerprint.insertSorted, if_neg h]
        exact (ih.cons q).trans (List.Perm.swap p q m)

theorem Fingerprint.sortByKey_perm :
    ∀ (l : List (String × String)), (Fingerprint.sortByKey l).Perm l := by
  intro l
  induction l with
  | nil => simp [Fingerprint.sortByKey]
  | cons p m ih =>
      simp only [Fingerprint.sortByKey]
      exact (Fingerprint.insertSorted_perm p _).trans (ih.cons p)

theorem Fingerprint.insertSorted_pairwise (p : String × String) :
    ∀ (l : List (String × String)), l.Pairwise (fun a b => a.1 ≤ b.1) →
      (Fingerprint.insertSorted p l).Pairwise (fun a b => a.1 ≤ b.1) := by
  intro l
  induction l with
  | nil => intro _; simp [Fingerprint.insertSorted]
  | cons q m ih =>
      intro hp
      rcases List.pairwise_cons.mp hp with ⟨hq, hm⟩
      by_cases h : p.1 ≤ q.1
      · simp only [Fingerprint.insertSorted, if_pos h]
        refine List.pairwise_cons.mpr ⟨?_, hp⟩
        intro x hx
        rcases List.mem_cons.mp hx with rfl | hx
        · exact h
        · exact le_trans h (hq x hx)
      · simp only [Fingerprint.insertSorted, if_neg h]
        refine List.pairwise_cons.mpr ⟨?_, ih hm⟩
        intro x hx
        rcases List.mem_cons.mp ((Fingerprint.insertSorted_perm p m).mem_iff.mp hx) with
          rfl | hx
        · exact le_of_not_le h
        · exact hq x hx

theorem Fingerprint.sortByKey_pairwise :
    ∀ (l : List (String × String)),
      (Fingerprint.sortByKey l).Pairwise (fun a b => a.1 ≤ b.1) := by
  intro l
  induction l with
  | nil => simp [Fingerprint.sortByKey]
  | cons p m ih => exact Fingerprint.insertSorted_pairwise p _ ih

theorem Fingerprint.eq_of_perm_sorted :
    ∀ (l₁ l₂ : List (String × String)), l₁.Perm l₂ →
      l₁.Pairwise (fun a b => a.1 ≤ b.1) → l₂.Pairwise (fun a b => a.1 ≤ b.1) →
      (AList.keys l₁).Nodup → l₁ = l₂ := by
  intro l₁
  induction l₁ with
  | nil =>
      intro l₂ hperm _ _ _
      exact hperm.nil_eq
  | cons p r₁ ih =>
      intro l₂ hperm hs₁ hs₂ hnd
      cases l₂ with
      | nil => exact absurd hperm.symm.nil_eq (by simp)
      | cons q r₂ =>
          simp only [AList.keys, List.map_cons, List.nodup_cons] at hnd
          by_cases hpq : p = q
          · subst hpq
            have htail := hperm.cons_inv
            rw [ih r₂ htail (List.pairwise_cons.mp hs₁).2 (List.pairwise_cons.mp hs₂).2
              (by simpa [AList.keys] using hnd.2)]
          · exfalso
            have hpmem : p ∈ q :: r₂ := hperm.mem_iff.mp (List.mem_cons_self ..)
            have hp2 : p ∈ r₂ := by
              rcases List.mem_cons.mp hpmem with h | h
              · exact absurd h hpq
              · exact h
            have hqmem : q ∈ p :: r₁ := hperm.symm.mem_iff.mp (List.mem_cons_self ..)
            have hq2 : q ∈ r₁ := by
              rcases List.mem_cons.mp hqmem with h | h
              · exact absurd h.symm hpq
              · exact h
            have h1 : p.1 ≤ q.1 := (List.pairwise_cons.mp hs₁).1 q hq2
            have h2 : q.1 ≤ p.1 := (List.pairwise_cons.mp hs₂).1 p hp2
            exact hnd.1 (List.mem_map.mpr ⟨q, hq2, (le_antisymm h2 h1 : q.1 = p.1)⟩)

theorem AList.mem_find {κ ν : Type _} [DecidableEq κ] :
    ∀ {l : List (κ × ν)} {k : κ} {v : ν}, (k, v) ∈ l → (AList.keys l).Nodup →
      AList.find l k = some v := by
  intro l
  induction l with
  | nil => intro k v h _; simp at h
  | cons hd tl ih =>
      obtain ⟨k', v'⟩ := hd
      intro k v hmem hnd
      simp only [AList.keys, List.map_cons, List.nodup_cons] at hnd
      rcases List.mem_cons.mp hmem with heq | hmem'
      · obtain ⟨h1, h2⟩ := Prod.mk.inj heq
        subst h1
        subst h2
        simp [AList.find]
      · have hk : ¬ (k' = k) := by
          intro hkk
          apply hnd.1
          rw [hkk]
          exact List.mem_map.mpr ⟨(k, v), hmem', rfl⟩
        simp only [AList.find, if_neg hk]
        exact ih hmem' (by simpa [AList.keys] using hnd.2)

theorem AList.find_of_perm {κ ν : Type _} [DecidableEq κ] {l₁ l₂ : List (κ × ν)}
    (hperm : l₁.Perm l₂) (hnd : (AList.keys l₁).Nodup) (k : κ) :
    AList.find l₁ k = AList.find l₂ k := by
  have hnd₂ : (AList.keys l₂).Nodup := (hperm.map Prod.fst).nodup hnd
  cases hfind : AList.find l₁ k with
  | some v =>
      exact (AList.mem_find (hperm.mem_iff.mp (AList.find_mem hfind)) hnd₂).symm
  | none =>
      have hk1 : k ∉ AList.keys l₁ := by
        intro hk
        rcases List.mem_map.mp hk with ⟨kv, hkv, hfst⟩
        have : AList.find l₁ k = some kv.2 := by
          subst hfst
          exact AList.mem_find (by simpa using hkv) hnd
        rw [hfind] at this
        exact Option.noConfusion this
      have hk2 : k ∉ AList.keys l₂ := fun hk =>
        hk1 ((hperm.map Prod.fst).mem_iff.mpr hk)
      exact (AList.find_eq_none hk2).symm

theorem Fingerprint.key_data_data (sha256hex : String → String) (img desc : String)
    (ts : List (String × String)) :
    (Fingerprint.key_data sha256hex img desc ts).data =
      ((sha256hex img).take 16).data ++
        ':' :: (desc.data ++ ':' :: Fingerprint.dumpsSorted ts) := by
  unfold Fingerprint.key_data
  simp only [String.data_append, List.append_assoc]
  rfl

/-- **C7.**  Cache-key canonicalization, `LRUCache._generate_key`.  (1) Two
`tech_stack` dicts that are equal as key-value maps but enumerate their keys
in different orders (a permutation; dict keys are distinct) produce the same
fingerprint for fixed `image_data` and `description`.  Up to hash collision —
i.e. assuming the digest does not collide at the two `key_data` inputs, and
(for the image part) that the two 16-character image-hash prefixes differ and
digests have equal length — the fingerprint changes when (2) `image_data`
changes, (3) `description` changes, or (4) any `tech_stack` field value
changes (the two dicts disagree at some key). -/
theorem fingerprint_canonical (sha256hex : String → String) :
    (∀ (img desc : String) (ts₁ ts₂ : List (String × String)),
      (AList.keys ts₁).Nodup → ts₁.Perm ts₂ →
      Fingerprint.generate_key sha256hex img desc ts₁ =
        Fingerprint.generate_key sha256hex img desc ts₂) ∧
    (∀ (img₁ img₂ desc : String) (ts : List (String × String)),
      (sha256hex img₁).take 16 ≠ (sha256hex img₂).take 16 →
      ((sha256hex img₁).take 16).length = ((sha256hex img₂).take 16).length →
      (sha256hex (Fingerprint.key_data sha256hex img₁ desc ts) =
          sha256hex (Fingerprint.key_data sha256hex img₂ desc ts) →
        Fingerprint.key_data sha256hex img₁ desc ts =
          Fingerprint.key_data sha256hex img₂ desc ts) →
      Fingerprint.generate_key sha256hex img₁ desc ts ≠
        Fingerprint.generate_key sha256hex img₂ desc ts) ∧
    (∀ (img desc₁ desc₂ : String) (ts : List (String × String)), desc₁ ≠ desc₂ →
      (sha256hex (Fingerprint.key_data sha256hex img desc₁ ts) =
          sha256hex (Fingerprint.key_data sha256hex img desc₂ ts) →
        Fingerprint.key_data sha256hex img desc₁ ts =
          Fingerprint.key_data sha256hex img desc₂ ts) →
      Fingerprint.generate_key sha256hex img desc₁ ts ≠
        Fingerprint.generate_key sha256hex img desc₂ ts) ∧
    (∀ (img desc : String) (ts₁ ts₂ : List (String × String)) (k : String),
      (AList.keys ts₁).Nodup → (AList.keys ts₂).Nodup →
      AList.find ts₁ k ≠ AList.find ts₂ k →
      (sha256hex (Fingerprint.key_data sha256hex img desc ts₁) =
          sha256hex (Fingerprint.key_data sha256hex img desc ts₂) →
        Fingerprint.key_data sha256hex img desc ts₁ =
          Fingerprint.key_data sha256hex img desc ts₂) →
      Fingerprint.generate_key sha256hex img desc ts₁ ≠
        Fingerprint.generate_key sha256hex img desc ts₂) := by
  refine ⟨?_, ?_, ?_, ?_⟩
  · intro img desc ts₁ ts₂ hnd hperm
    have hsort : Fingerprint.sortByKey ts₁ = Fingerprint.sortByKey ts₂ := by
      apply Fingerprint.eq_of_perm_sorted
      · exact (Fingerprint.sortByKey_perm ts₁).trans
          (hperm.trans (Fingerprint.sortByKey_perm ts₂).symm)
      · exact Fingerprint.sortByKey_pairwise ts₁
      · exact Fingerprint.sortByKey_pairwise ts₂
      · exact ((Fingerprint.sortByKey_perm ts₁).map Prod.fst).symm.nodup hnd
    have hdump : Fingerprint.dumpsSorted ts₁ = Fingerprint.dumpsSorted ts₂ := by
      unfold Fingerprint.dumpsSorted
      rw [hsort]
    unfold Fingerprint.generate_key Fingerprint.key_data
    rw [hdump]
  · intro img₁ img₂ desc ts hne hlen hc heq
    have hdata := congrArg String.data (hc heq)
    rw [Fingerprint.key_data_data, Fingerprint.key_data_data] at hdata
    have hlen' : ((sha256hex img₁).take 16).data.length =
        ((sha256hex img₂).take 16).data.length := by
      rw [show ∀ t : String, t.data.length = t.length from fun t => rfl]
      rw [show ∀ t : String, t.data.length = t.length from fun t => rfl]
      exact hlen
    obtain ⟨h16, -⟩ := List.append_inj hdata hlen'
    exact hne (String.ext h16)
  · intro img desc₁ desc₂ ts hne hc heq
    have hdata := congrArg String.data (hc heq)
    rw [Fingerprint.key_data_data, Fingerprint.key_data_data] at hdata
    have h1 := List.append_cancel_left hdata
    injection h1 with h1a h1
    have h2 := List.append_cancel_right h1
    exact hne (String.ext h2)
  · intro img desc ts₁ ts₂ k hnd₁ hnd₂ hfind hc heq
    have hdata := congrArg String.data (hc heq)
    rw [Fingerprint.key_data_data, Fingerprint.key_data_data] at hdata
    have h1 := List.append_cancel_left hdata
    injection h1 with h1a h1
    have h2 := List.append_cancel_left h1
    injection h2 with h2a h2
    have hdump : Fingerprint.dumpsSorted ts₁ = Fingerprint.dumpsSorted ts₂ := h2
    have hsort := Fingerprint.dumpsSorted_inj hdump
    apply hfind
    calc AList.find ts₁ k
        = AList.find (Fingerprint.sortByKey ts₁) k :=
          AList.find_of_perm (Fingerprint.sortByKey_perm ts₁).symm hnd₁ k
      _ = AList.find (Fingerprint.sortByKey ts₂) k := by rw [hsort]
      _ = AList.find ts₂ k :=
          AList.find_of_perm (Fingerprint.sortByKey_perm ts₂)
            (((Fingerprint.sortByKey_perm ts₂).map Prod.fst).symm.nodup hnd₂) k

/-- **C7, witness.**  With the digest instantiated by `id` (injective, so
trivially collision-free at the two inputs): reordering a two-field dict keeps
the fingerprint; changing the image data, the description, or the value at key
`"k"` changes it. -/
theorem fingerprint_canonical_witness :
    Fingerprint.generate_key id "i" "d" [("b", "1"), ("a", "2")] =
      Fingerprint.generate_key id "i" "d" [("a", "2"), ("b", "1")] ∧
    Fingerprint.generate_key id "x" "d" [] ≠ Fingerprint.generate_key id "y" "d" [] ∧
    Fingerprint.generate_key id "i" "a" [] ≠ Fingerprint.generate_key id "i" "b" [] ∧
    Fingerprint.generate_key id "i" "d" [("k", "1")] ≠
      Fingerprint.generate_key id "i" "d" [("k", "2")] :=
  ⟨(fingerprint_canonical id).1 "i" "d" _ _ (by simp [AList.keys])
      (List.Perm.swap ("a", "2") ("b", "1") []),
   (fingerprint_canonical id).2.1 "x" "y" "d" [] (by decide) (by decide) (fun h => h),
   (fingerprint_canonical id).2.2.1 "i" "a" "b" [] (by decide) (fun h => h),
   (fingerprint_canonical id).2.2.2 "i" "d" [("k", "1")] [("k", "2")] "k"
     (by simp [AList.keys]) (by simp [AList.keys]) (by simp [AList.find]) (fun h => h)⟩

end RNet
